import Mathlib

/-!
Verification development for the tweet-analysis pipeline
(`src/main.py`, `src/data_cleaner.py`, `src/data_details.py`,
`results/results_correct_format.py`).

The table is modelled as a list of rows with the two domain columns
`Text` and `Biased`; a cell is `Option String` (`none` models a missing
value / pandas `NaN`, and label cells are modelled by their `str(...)`
form).  Python string primitives are modelled on the ASCII fragment that
`string.punctuation`, `str.lower`, `str.split`, `str.isupper`,
`str.isalpha` and `str.isdigit` act on.  Rational numbers stand for the
Python floats produced by `mean()` and `round(x, 1)`.
-/

/-! ### Python character and string primitives -/

/-- Code points of `string.punctuation`:
`! " # $ % & ' ( ) * + , - . / : ; < = > ? @ [ \ ] ^ _` followed by
backquote and `\x7b | \x7d ~`. -/
def punctCodes : List Nat :=
  [33, 34, 35, 36, 37, 38, 39, 40, 41, 42, 43, 44, 45, 46, 47,
   58, 59, 60, 61, 62, 63, 64, 91, 92, 93, 94, 95, 96, 123, 124, 125, 126]

def pyIsPunctChar (c : Char) : Bool := decide (c.toNat ∈ punctCodes)

/-- Whitespace recognised by `str.split()` / `\s` (ASCII fragment). -/
def spaceCodes : List Nat := [9, 10, 11, 12, 13, 32]

def pyIsSpaceChar (c : Char) : Bool := decide (c.toNat ∈ spaceCodes)

def pyIsUpperChar (c : Char) : Bool := 65 ≤ c.toNat && c.toNat ≤ 90

def pyIsLowerChar (c : Char) : Bool := 97 ≤ c.toNat && c.toNat ≤ 122

def pyIsAlphaChar (c : Char) : Bool := pyIsUpperChar c || pyIsLowerChar c

def pyIsDigitChar (c : Char) : Bool := 48 ≤ c.toNat && c.toNat ≤ 57

/-- `str.lower` on one character (ASCII fragment). -/
def pyLowerChar (c : Char) : Char :=
  if 65 ≤ c.toNat ∧ c.toNat ≤ 90 then Char.ofNat (c.toNat + 32) else c

/-- `str.lower`. -/
def pyLower (s : String) : String := ⟨s.data.map pyLowerChar⟩

/-- `str.translate(str.maketrans('', '', string.punctuation))`. -/
def removePunct (s : String) : String := ⟨s.data.filter (fun c => !pyIsPunctChar c)⟩

/-- `str.split()`: split on whitespace runs, dropping empty pieces. -/
def pyWords (s : String) : List String :=
  ((s.data.splitOnP pyIsSpaceChar).filter (fun w => w ≠ [])).map String.mk

/-- `str.strip()`. -/
def pyStrip (s : String) : String :=
  ⟨((s.data.dropWhile pyIsSpaceChar).reverse.dropWhile pyIsSpaceChar).reverse⟩

/-- `re.sub(r'\s+', ' ', s)`: each maximal whitespace run becomes one space. -/
def collapseWS : List Char → List Char
  | [] => []
  | [c] => [if pyIsSpaceChar c then ' ' else c]
  | c :: d :: cs =>
    if pyIsSpaceChar c && pyIsSpaceChar d then collapseWS (d :: cs)
    else (if pyIsSpaceChar c then ' ' else c) :: collapseWS (d :: cs)

/-- `re.sub(r'\s+', ' ', s).strip()` (body of `DataCleaner._clean_whitespace`). -/
def normalizeWS (s : String) : String := pyStrip ⟨collapseWS s.data⟩

/-- `str.isupper()` (ASCII model: some cased character, all cased characters upper). -/
def pyIsUpperStr (s : String) : Bool :=
  s.data.any pyIsAlphaChar && s.data.all (fun c => !pyIsAlphaChar c || pyIsUpperChar c)

/-- `str.isalpha()`. -/
def pyIsAlphaStr (s : String) : Bool := !s.data.isEmpty && s.data.all pyIsAlphaChar

/-! ### Data model -/

/-- The two columns of the cleaned table: `Text` and `Biased`. -/
inductive Col
  | text
  | biased
deriving DecidableEq

/-- One row of the record table.  `none` is a missing cell (pandas `NaN`);
a label cell is modelled by its `str(...)` form. -/
structure Row where
  text : Option String
  biased : Option String
deriving DecidableEq

def getCol : Col → Row → Option String
  | .text, r => r.text
  | .biased, r => r.biased

def setCol : Col → Row → String → Row
  | .text, r, s => { r with text := some s }
  | .biased, r, s => { r with biased := some s }

/-- `Series.astype(str)` on one cell: `NaN` becomes the string `"nan"`. -/
def astypeStr : Option String → String
  | none => "nan"
  | some s => s

/-! ### Cleaner (`src/data_cleaner.py`) -/

namespace DataCleaner

/-- `_safe_lowercase` applied after `astype(str)` (so the input is a string
and the `pd.isna` branch is dead): `'nan'` becomes `''`, otherwise lowercase. -/
def safe_lowercase (s : String) : String := if s = "nan" then "" else pyLower s

/-- `_safe_remove_punctuation` applied after `astype(str)`. -/
def safe_remove_punctuation (s : String) : String :=
  if s = "nan" then "" else removePunct s

/-- `_clean_whitespace` applied after `astype(str)`. -/
def clean_whitespace (s : String) : String := if s = "nan" then "" else normalizeWS s

/-- Apply `astype(str)` followed by a string transform to one column of
every row (the per-column body of the cleaning loops). -/
def applyColMap (φ : String → String) (c : Col) (t : List Row) : List Row :=
  t.map (fun r => setCol c r (φ (astypeStr (getCol c r))))

/-- `DataCleaner.convert_to_lowercase` (every `Col` exists, so the
missing-column warning branch is dead). -/
def convert_to_lowercase (t : List Row) (cols : List Col) : List Row :=
  cols.foldl (fun tb c => applyColMap safe_lowercase c tb) t

/-- `DataCleaner.removing_punctuation_marks`. -/
def removing_punctuation_marks (t : List Row) (cols : List Col) : List Row :=
  cols.foldl (fun tb c => applyColMap safe_remove_punctuation c tb) t

/-- `DataCleaner.remove_extra_whitespace`. -/
def remove_extra_whitespace (t : List Row) (cols : List Col) : List Row :=
  cols.foldl (fun tb c => applyColMap clean_whitespace c tb) t

/-- `DataCleaner.delete_unclassified`: drop rows with a missing value in
any of the given columns. -/
def delete_unclassified (t : List Row) (cols : List Col) : List Row :=
  t.filter (fun r => cols.all (fun c => (getCol c r).isSome))

/-- `DataCleaner.remove_empty_entries`: keep rows whose cell is present,
strips to something non-empty, and is not the string `'nan'`. -/
def remove_empty_entries (t : List Row) (cols : List Col) : List Row :=
  cols.foldl
    (fun tb c =>
      tb.filter (fun r =>
        (getCol c r).isSome &&
        decide (pyStrip (astypeStr (getCol c r)) ≠ "") &&
        decide (astypeStr (getCol c r) ≠ "nan")))
    t

/-- `DataCleaner.comprehensive_text_cleaning` with `remove_unclassified=True`. -/
def comprehensive_text_cleaning (t : List Row) (textCols classCols : List Col) :
    List Row :=
  remove_empty_entries
    (remove_extra_whitespace
      (convert_to_lowercase
        (removing_punctuation_marks (delete_unclassified t classCols) textCols)
        textCols)
      textCols)
    textCols

end DataCleaner

/-- One row after the per-column cleaning loop over `cols`: the column
transform `φ` (after `astype(str)`) applied for each listed column in turn. -/
def rowTransform (φ : String → String) (cols : List Col) (r : Row) : Row :=
  cols.foldl (fun r c => setCol c r (φ (astypeStr (getCol c r)))) r

/-- Normal form of `rowTransform`: each targeted column transformed once. -/
def rowNormal (φ : String → String) (cols : List Col) (r : Row) : Row :=
  ⟨if Col.text ∈ cols then some (φ (astypeStr r.text)) else r.text,
   if Col.biased ∈ cols then some (φ (astypeStr r.biased)) else r.biased⟩

/-- Cell values on which `_safe_lowercase` is stable under repetition:
either exactly `"nan"`, or a value that does not lowercase to `"nan"`. -/
def condLower (s : String) : Prop := s = "nan" ∨ pyLower s ≠ "nan"

instance (s : String) : Decidable (condLower s) := by
  unfold condLower; exact inferInstance

/-- Cell values on which punctuation removal and lowercasing interact
safely with the `'nan'` guard: exactly `"nan"`, or a value that is not
turned into `"nan"` by stripping punctuation, by lowercasing, or by both. -/
def condBoth (s : String) : Prop :=
  s = "nan" ∨
    (removePunct s ≠ "nan" ∧ pyLower s ≠ "nan" ∧ pyLower (removePunct s) ≠ "nan")

instance (s : String) : Decidable (condBoth s) := by
  unfold condBoth; exact inferInstance

/-! ### Generic list machinery: stable descending sort, first occurrences -/

section Sorting

variable {α : Type} (key idx : α → Nat)

/-- Insert into a list sorted by descending `key`, after every element of
greater-or-equal key (the stable position). -/
def insertD (x : α) : List α → List α
  | [] => [x]
  | y :: ys => if key y ≤ key x then x :: y :: ys else y :: insertD x ys

/-- Stable sort by descending `key` (the semantics of Python's
`sorted(..., reverse=True)` / pandas `nlargest(keep='first')` /
`Counter.most_common`). -/
def sortD : List α → List α
  | [] => []
  | x :: xs => insertD key x (sortD xs)

/-- Insert by the lexicographic order: descending `key`, ties by ascending `idx`. -/
def insertL (x : α) : List α → List α
  | [] => [x]
  | y :: ys =>
    if key y < key x ∨ (key y = key x ∧ idx x < idx y) then x :: y :: ys
    else y :: insertL x ys

/-- Sort by descending `key` with ties broken by ascending `idx`. -/
def sortL : List α → List α
  | [] => []
  | x :: xs => insertL key idx x (sortL xs)

/-- Pair every element with its position, starting at `i`. -/
def idxFrom (i : Nat) : List α → List (Nat × α)
  | [] => []
  | a :: l => (i, a) :: idxFrom (i + 1) l

end Sorting

/-- First occurrences, in order (`pandas.Series.unique` on the kept values).
Structurally recursive so that it evaluates by kernel reduction. -/
def distinctAux (seen : List String) : List String → List String
  | [] => []
  | a :: l => if a ∈ seen then distinctAux seen l else a :: distinctAux (a :: seen) l

def distinctList (l : List String) : List String := distinctAux [] l

/-- Index of the first occurrence of `w` in `l` (`list.index`). -/
def firstIdx (w : String) : List String → Nat
  | [] => 0
  | v :: vs => if v = w then 0 else firstIdx w vs + 1

/-- Python-dict insertion: overwrite in place if the key exists, else append. -/
def dictInsert {β : Type} (k : String) (v : β) : List (String × β) → List (String × β)
  | [] => [(k, v)]
  | (k2, v2) :: rest => if k2 = k then (k2, v) :: rest else (k2, v2) :: dictInsert k v rest

/-- `collections.Counter` built by one left-to-right pass: increment the
existing entry or append a fresh one (dict insertion order). -/
def counterInsert (w : String) : List (String × Nat) → List (String × Nat)
  | [] => [(w, 1)]
  | (v, n) :: rest =>
    if v = w then (v, n + 1) :: rest else (v, n) :: counterInsert w rest

def counterOf (ws : List String) : List (String × Nat) :=
  ws.foldl (fun acc w => counterInsert w acc) []

/-- `Counter.most_common(n)`: stable sort of the counter items by
descending count, first `n` keys. -/
def mostCommon (n : Nat) (ws : List String) : List String :=
  ((sortD (fun p => p.2) (counterOf ws)).take n).map (fun p => p.1)

/-! ### Explorer (`src/main.py`, `TwitterAnalysisComplete`) -/

/-- The raw table together with the derived columns the statistics
accumulate onto it (`word_count`, `uppercase_count`); `none` means the
column is absent. -/
structure PTable where
  rows : List Row
  word_count : Option (List Nat)
  uppercase_count : Option (List Nat)
deriving DecidableEq

/-- The non-missing label values, in row order. -/
def labelsOf (t : List Row) : List String := t.filterMap (fun r => r.biased)

/-- `len(str(x).split()) if pd.notna(x) else 0`. -/
def wordCountCell : Option String → Nat
  | none => 0
  | some s => (pyWords s).length

def computeWordCounts (rows : List Row) : List Nat :=
  rows.map (fun r => wordCountCell r.text)

/-- `count_caps_words` from `_count_uppercase_words`. -/
def count_caps_words : Option String → Nat
  | none => 0
  | some s =>
    ((pyWords s).filter
      (fun w => pyIsUpperStr w && decide (1 < w.data.length) && pyIsAlphaStr w)).length

def computeUpperCounts (rows : List Row) : List Nat :=
  rows.map (fun r => count_caps_words r.text)

/-- `Series.mean()` over the listed values, as an exact rational. -/
def qmean (l : List Nat) : ℚ := (l.map (fun n => (n : ℚ))).sum / l.length

/-- `_count_tweets_by_category`: one entry per distinct non-missing label
(`value_counts`; its key order is modelled as first-occurrence order —
every property proved about this dict is insertion-order independent),
then the `total` and `unspecified` entries are inserted into the same
dict, overwriting per-label entries on key collision. -/
def count_tweets_by_category (s : PTable) : List (String × Nat) :=
  let labs := labelsOf s.rows
  let base := (distinctList labs).foldl (fun d c => dictInsert c (labs.count c) d) []
  dictInsert "unspecified" (s.rows.countP (fun r => r.biased == none))
    (dictInsert "total" s.rows.length base)

/-- `_calculate_average_lengths`: stores the derived `word_count` column on
the raw table, then returns the per-label and overall means (full precision). -/
def calculate_average_lengths (s : PTable) :
    PTable × List (String × ℚ) :=
  let wcs := computeWordCounts s.rows
  let base := (distinctList (labelsOf s.rows)).foldl
    (fun d c =>
      dictInsert c
        (qmean ((s.rows.filter (fun r => r.biased == some c)).map
          (fun r => wordCountCell r.text))) d)
    []
  ({ s with word_count := some wcs }, dictInsert "total" (qmean wcs) base)

/-- `_find_longest_tweets`: uses the stored `word_count` column when
present (computing it otherwise), and per label takes the 3 rows of
greatest word count, `nlargest` keeping first occurrences. -/
def find_longest_tweets (s : PTable) :
    PTable × List (String × List (Option String)) :=
  let wcs := match s.word_count with
    | none => computeWordCounts s.rows
    | some l => l
  let paired := s.rows.zip wcs
  ({ s with word_count := some wcs },
   (distinctList (labelsOf s.rows)).map (fun c =>
     (c, ((sortD (fun p => p.2) (paired.filter (fun p => p.1.biased == some c))).take 3).map
       (fun p => p.1.text))))

/-- `' '.join(raw[text].dropna().astype(str))`. -/
def joinedText (rows : List Row) : String :=
  ⟨List.intercalate [' '] ((rows.filterMap (fun r => r.text)).map String.data)⟩

/-- The filtered token list of `_find_common_words`: lowercase the joined
text, delete punctuation, split, keep alphabetic tokens of length ≥ 2. -/
def qualifyingTokens (rows : List Row) : List String :=
  (pyWords (removePunct (pyLower (joinedText rows)))).filter
    (fun w => decide (2 ≤ w.data.length) && pyIsAlphaStr w)

/-- `_find_common_words`. -/
def find_common_words (s : PTable) : List String :=
  mostCommon 10 (qualifyingTokens s.rows)

/-- `_count_uppercase_words`: stores the derived `uppercase_count` column,
then sums it per label and overall. -/
def count_uppercase_words (s : PTable) : PTable × List (String × Nat) :=
  let ucs := computeUpperCounts s.rows
  let base := (distinctList (labelsOf s.rows)).foldl
    (fun d c =>
      dictInsert c
        (((s.rows.filter (fun r => r.biased == some c)).map
          (fun r => count_caps_words r.text)).sum) d)
    []
  ({ s with uppercase_count := some ucs }, dictInsert "total" ucs.sum base)

/-- The five Explorer statistics. -/
inductive Stat
  | counts
  | avgLen
  | longest
  | common
  | upper
deriving DecidableEq

/-- The effect each statistic has on the shared raw table. -/
def statStep : Stat → PTable → PTable
  | .counts, s => s
  | .avgLen, s => (calculate_average_lengths s).1
  | .longest, s => (find_longest_tweets s).1
  | .common, s => s
  | .upper, s => (count_uppercase_words s).1

/-- The value each statistic returns. -/
inductive StatValue
  | countsV : List (String × Nat) → StatValue
  | avgV : List (String × ℚ) → StatValue
  | longV : List (String × List (Option String)) → StatValue
  | commV : List String → StatValue
  | upperV : List (String × Nat) → StatValue

def statObs : Stat → PTable → StatValue
  | .counts, s => .countsV (count_tweets_by_category s)
  | .avgLen, s => .avgV (calculate_average_lengths s).2
  | .longest, s => .longV (find_longest_tweets s).2
  | .common, s => .commV (find_common_words s)
  | .upper, s => .upperV (count_uppercase_words s).2

/-- `analysis_results` as assembled by `step1_data_exploration`. -/
structure AnalysisResults where
  total_tweets : List (String × Nat)
  average_length : List (String × ℚ)
  longest_3_tweets : List (String × List (Option String))
  common_words : List String
  uppercase_words : List (String × Nat)

/-- `DataInformation.__init__` (`src/data_details.py`): rejects an empty
table before anything else runs. -/
def dataInformationInit (t : List Row) : Except String (Nat × Nat) :=
  if t.length = 0 then .error "Data cannot be empty." else .ok (t.length, 2)

/-- `step1_data_exploration`: load summary (which fails on an empty
table), then the five statistics in source order, threading the shared
raw table. -/
def step1_data_exploration (t : List Row) : Except String AnalysisResults := do
  let _ ← dataInformationInit t
  let s0 : PTable := ⟨t, none, none⟩
  let r1 := count_tweets_by_category s0
  let p2 := calculate_average_lengths s0
  let p3 := find_longest_tweets p2.1
  let r4 := find_common_words p3.1
  let p5 := count_uppercase_words p3.1
  .ok ⟨r1, p2.2, p3.2, r4, p5.2⟩

/-! ### Formatter (`_convert_to_exam_format`, `results_correct_format.py`) -/

/-- Round half to even at integer precision (Python `round` on an exact value). -/
def roundHalfEven (q : ℚ) : ℤ :=
  let n := ⌊q⌋
  if q - n < 1/2 then n
  else if (1 : ℚ)/2 < q - n then n + 1
  else if Even n then n else n + 1

/-- Python `round(x, 1)`. -/
def round1 (q : ℚ) : ℚ := (roundHalfEven (10 * q) : ℚ) / 10

def convert_category_name (k : String) : String :=
  if k = "1" then "antisemitic" else if k = "0" then "non_antisemitic" else k

/-- The `total_tweets` loop: keep `'1'`, `'0'` (renamed), `'unspecified'`
and `'total'`; drop every other key.  (The source iterates a dict, whose
keys are unique, so rebuilding in iteration order is the same dict.) -/
def convertCountsSection : List (String × Nat) → List (String × Nat)
  | [] => []
  | (k, v) :: rest =>
    if k = "1" ∨ k = "0" then (convert_category_name k, v) :: convertCountsSection rest
    else if k = "unspecified" then ("unspecified", v) :: convertCountsSection rest
    else if k = "total" then ("total", v) :: convertCountsSection rest
    else convertCountsSection rest

/-- The `average_length` loop: keep `'1'`, `'0'`, `'total'`, rounding to
one decimal digit; drop every other key. -/
def convertAvgSection : List (String × ℚ) → List (String × ℚ)
  | [] => []
  | (k, v) :: rest =>
    if k = "1" ∨ k = "0" then (convert_category_name k, round1 v) :: convertAvgSection rest
    else if k = "total" then ("total", round1 v) :: convertAvgSection rest
    else convertAvgSection rest

/-- The `longest_3_tweets` loop: keep only `'1'` and `'0'`. -/
def convertLongestSection :
    List (String × List (Option String)) → List (String × List (Option String))
  | [] => []
  | (k, v) :: rest =>
    if k = "1" ∨ k = "0" then (convert_category_name k, v) :: convertLongestSection rest
    else convertLongestSection rest

/-- The `uppercase_words` loop: keep `'1'`, `'0'`, `'total'`. -/
def convertUpperSection : List (String × Nat) → List (String × Nat)
  | [] => []
  | (k, v) :: rest =>
    if k = "1" ∨ k = "0" then (convert_category_name k, v) :: convertUpperSection rest
    else if k = "total" then ("total", v) :: convertUpperSection rest
    else convertUpperSection rest

/-- The exam-format document produced by `_convert_to_exam_format`. -/
structure ExamFormat where
  total_tweets : List (String × Nat)
  average_length : List (String × ℚ)
  common_words : List (String × List String)
  longest_3_tweets : List (String × List (Option String))
  uppercase_words : List (String × Nat)

def convert_to_exam_format (a : AnalysisResults) : ExamFormat :=
  ⟨convertCountsSection a.total_tweets,
   convertAvgSection a.average_length,
   [("total", a.common_words)],
   convertLongestSection a.longest_3_tweets,
   convertUpperSection a.uppercase_words⟩

/-! ### Specification-side definitions (used by the refinement claims) -/

/-- Modelled from the spec (claim C3): "count frequency; return the
`top_n` highest-frequency tokens, ties broken by first-occurrence order
in the concatenated text" — the distinct tokens ordered by descending
count with ties by ascending first-occurrence index. -/
def commonWordsSpec (rows : List Row) : List String :=
  let ws := qualifyingTokens rows
  (sortL (fun w => ws.count w) (fun w => firstIdx w ws) (distinctList ws)).take 10

/-- Modelled from the spec (claim C6): "per label, select the `top_n`
rows with greatest word count; ties broken by original row order" — rows
are enumerated with their original position and sorted by descending word
count, ties by ascending position. -/
def longestTextsSpec (t : List Row) : List (String × List (Option String)) :=
  (distinctList (labelsOf t)).map (fun c =>
    (c,
      ((sortL (fun p => wordCountCell p.2.text) (fun p => p.1)
          ((idxFrom 0 t).filter (fun p => p.2.biased == some c))).take 3).map
        (fun p => p.2.text)))

/-! ## Lemmas about the character and string primitives -/

theorem charOfNat_toNat {n : Nat} (h : n < 55296) : (Char.ofNat n).toNat = n := by
  have hv : n.isValidChar := Or.inl h
  rw [Char.ofNat, dif_pos hv]
  simp [Char.ofNatAux, Char.toNat, UInt32.ofNat', UInt32.toNat, BitVec.toNat_ofNatLt]

theorem pyLowerChar_toNat_of_upper {c : Char} (h : 65 ≤ c.toNat ∧ c.toNat ≤ 90) :
    (pyLowerChar c).toNat = c.toNat + 32 := by
  rw [pyLowerChar, if_pos h]
  exact charOfNat_toNat (by omega)

theorem pyLowerChar_of_not_upper {c : Char} (h : ¬(65 ≤ c.toNat ∧ c.toNat ≤ 90)) :
    pyLowerChar c = c := by
  rw [pyLowerChar, if_neg h]

theorem pyLowerChar_idem (c : Char) : pyLowerChar (pyLowerChar c) = pyLowerChar c := by
  by_cases h : 65 ≤ c.toNat ∧ c.toNat ≤ 90
  · have ht := pyLowerChar_toNat_of_upper h
    exact pyLowerChar_of_not_upper (by rw [ht]; omega)
  · rw [pyLowerChar_of_not_upper h]
    exact pyLowerChar_of_not_upper h

theorem mem_punctCodes_bounds {n : Nat} (h : n ∈ punctCodes) :
    (33 ≤ n ∧ n ≤ 47) ∨ (58 ≤ n ∧ n ≤ 64) ∨ (91 ≤ n ∧ n ≤ 96) ∨ (123 ≤ n ∧ n ≤ 126) := by
  simp only [punctCodes, List.mem_cons, List.not_mem_nil, or_false] at h
  rcases h with h | h | h | h | h | h | h | h | h | h | h | h | h | h | h | h |
    h | h | h | h | h | h | h | h | h | h | h | h | h | h | h | h <;> omega

theorem pyIsPunctChar_pyLowerChar (c : Char) :
    pyIsPunctChar (pyLowerChar c) = pyIsPunctChar c := by
  by_cases h : 65 ≤ c.toNat ∧ c.toNat ≤ 90
  · have ht := pyLowerChar_toNat_of_upper h
    have h1 : pyIsPunctChar (pyLowerChar c) = false := by
      rw [pyIsPunctChar, decide_eq_false_iff_not]
      intro hm
      rcases mem_punctCodes_bounds hm with h2 | h2 | h2 | h2 <;> omega
    have h2 : pyIsPunctChar c = false := by
      rw [pyIsPunctChar, decide_eq_false_iff_not]
      intro hm
      rcases mem_punctCodes_bounds hm with h2 | h2 | h2 | h2 <;> omega
    rw [h1, h2]
  · rw [pyLowerChar_of_not_upper h]

theorem pyLower_idem (s : String) : pyLower (pyLower s) = pyLower s := by
  apply congrArg String.mk
  show (s.data.map pyLowerChar).map pyLowerChar = s.data.map pyLowerChar
  rw [List.map_map]
  exact List.map_congr_left (fun c _ => pyLowerChar_idem c)

theorem removePunct_pyLower (s : String) :
    removePunct (pyLower s) = pyLower (removePunct s) := by
  apply congrArg String.mk
  show (s.data.map pyLowerChar).filter _ = (s.data.filter _).map pyLowerChar
  rw [List.filter_map]
  congr 1
  apply List.filter_congr
  intro c _
  show (!pyIsPunctChar (pyLowerChar c)) = !pyIsPunctChar c
  rw [pyIsPunctChar_pyLowerChar]

theorem removePunct_idem (s : String) : removePunct (removePunct s) = removePunct s := by
  apply congrArg String.mk
  show (s.data.filter _).filter _ = s.data.filter _
  rw [List.filter_filter]
  apply List.filter_congr
  intro c _
  exact Bool.and_self _

theorem pyLower_empty : pyLower "" = "" := rfl

theorem removePunct_empty : removePunct "" = "" := rfl

/-! ## The per-row cleaning machinery -/

theorem getCol_setCol_same (c : Col) (r : Row) (s : String) :
    getCol c (setCol c r s) = some s := by
  cases c <;> rfl

theorem getCol_setCol_ne {c c2 : Col} (h : c ≠ c2) (r : Row) (s : String) :
    getCol c (setCol c2 r s) = getCol c r := by
  cases c <;> cases c2 <;> first | rfl | exact absurd rfl h

theorem rowEqOfGet {r1 r2 : Row} (h : ∀ c, getCol c r1 = getCol c r2) : r1 = r2 := by
  cases r1; cases r2
  have ht := h Col.text
  have hb := h Col.biased
  simp only [getCol] at ht hb
  rw [Row.mk.injEq]
  exact ⟨ht, hb⟩

theorem getCol_rowNormal (φ : String → String) (cols : List Col) (r : Row) (c : Col) :
    getCol c (rowNormal φ cols r) =
      if c ∈ cols then some (φ (astypeStr (getCol c r))) else getCol c r := by
  cases c <;> rfl

theorem foldl_applyColMap (φ : String → String) :
    ∀ (cols : List Col) (t : List Row),
      cols.foldl (fun tb c => DataCleaner.applyColMap φ c tb) t =
        t.map (rowTransform φ cols)
  | [], t => by
    show t = t.map (rowTransform φ [])
    have h : rowTransform φ [] = fun r => r := rfl
    rw [h, List.map_id']
  | c :: cols, t => by
    rw [List.foldl_cons, foldl_applyColMap φ cols, DataCleaner.applyColMap, List.map_map]
    rfl

section RowMachinery

variable {φ : String → String} {C : String → Prop}

theorem rowTransform_eq_rowNormal
    (hpres : ∀ s, C s → C (φ s)) (hstab : ∀ s, C s → φ (φ s) = φ s) :
    ∀ (cols : List Col) (r : Row),
      (∀ c ∈ cols, C (astypeStr (getCol c r))) →
      rowTransform φ cols r = rowNormal φ cols r
  | [], r, _ => by
    show r = rowNormal φ [] r
    apply rowEqOfGet
    intro c
    rw [getCol_rowNormal, if_neg (List.not_mem_nil c)]
  | c :: cols, r, h => by
    have hc : C (astypeStr (getCol c r)) := h c (List.mem_cons_self c cols)
    have hstep :
        rowTransform φ (c :: cols) r =
          rowTransform φ cols (setCol c r (φ (astypeStr (getCol c r)))) := rfl
    set r2 := setCol c r (φ (astypeStr (getCol c r))) with hr2
    have h2 : ∀ c2 ∈ cols, C (astypeStr (getCol c2 r2)) := by
      intro c2 hc2
      by_cases hcc : c2 = c
      · subst hcc
        rw [hr2, getCol_setCol_same]
        exact hpres _ hc
      · rw [hr2, getCol_setCol_ne hcc]
        exact h c2 (List.mem_cons_of_mem c hc2)
    rw [hstep, rowTransform_eq_rowNormal hpres hstab cols r2 h2]
    apply rowEqOfGet
    intro c2
    rw [getCol_rowNormal, getCol_rowNormal]
    by_cases hmem : c2 ∈ cols
    · rw [if_pos hmem, if_pos (List.mem_cons_of_mem c hmem)]
      by_cases hcc : c2 = c
      · subst hcc
        rw [hr2, getCol_setCol_same]
        show some (φ (φ _)) = _
        rw [hstab _ hc]
      · rw [hr2, getCol_setCol_ne hcc]
    · rw [if_neg hmem]
      by_cases hcc : c2 = c
      · subst hcc
        rw [if_pos (List.mem_cons_self c2 cols), hr2, getCol_setCol_same]
      · rw [if_neg (by
          intro hmem2
          rcases List.mem_cons.1 hmem2 with h3 | h3
          · exact hcc h3
          · exact hmem h3), hr2, getCol_setCol_ne hcc]

theorem rowNormal_cond (hpres : ∀ s, C s → C (φ s)) (cols : List Col) (r : Row)
    (h : ∀ c ∈ cols, C (astypeStr (getCol c r))) :
    ∀ c ∈ cols, C (astypeStr (getCol c (rowNormal φ cols r))) := by
  intro c hc
  rw [getCol_rowNormal, if_pos hc]
  exact hpres _ (h c hc)

theorem rowNormal_rowNormal (hstab : ∀ s, C s → φ (φ s) = φ s) (cols : List Col) (r : Row)
    (h : ∀ c ∈ cols, C (astypeStr (getCol c r))) :
    rowNormal φ cols (rowNormal φ cols r) = rowNormal φ cols r := by
  apply rowEqOfGet
  intro c
  by_cases hc : c ∈ cols
  · simp only [getCol_rowNormal, if_pos hc]
    show some (φ (φ _)) = some (φ _)
    rw [hstab _ (h c hc)]
  · simp only [getCol_rowNormal, if_neg hc]

end RowMachinery

/-! ## Stability facts for the `'nan'`-guarded cell transforms -/

theorem safe_lowercase_of_ne (s : String) (h : s ≠ "nan") :
    DataCleaner.safe_lowercase s = pyLower s := by
  rw [DataCleaner.safe_lowercase, if_neg h]

theorem safe_remove_punctuation_of_ne (s : String) (h : s ≠ "nan") :
    DataCleaner.safe_remove_punctuation s = removePunct s := by
  rw [DataCleaner.safe_remove_punctuation, if_neg h]

theorem condLower_pres (s : String) (h : condLower s) :
    condLower (DataCleaner.safe_lowercase s) := by
  by_cases hn : s = "nan"
  · subst hn; decide
  · rcases h with h | h
    · exact absurd h hn
    · rw [safe_lowercase_of_ne s hn]
      exact Or.inr (by rw [pyLower_idem]; exact h)

theorem condLower_stab (s : String) (h : condLower s) :
    DataCleaner.safe_lowercase (DataCleaner.safe_lowercase s) =
      DataCleaner.safe_lowercase s := by
  by_cases hn : s = "nan"
  · subst hn; rfl
  · rcases h with h | h
    · exact absurd h hn
    · rw [safe_lowercase_of_ne s hn, safe_lowercase_of_ne _ h, pyLower_idem]

theorem condBoth_pres_punct (s : String) (h : condBoth s) :
    condBoth (DataCleaner.safe_remove_punctuation s) := by
  by_cases hn : s = "nan"
  · subst hn; decide
  · rcases h with h | ⟨hp, hl, hpl⟩
    · exact absurd h hn
    · rw [safe_remove_punctuation_of_ne s hn]
      refine Or.inr ⟨?_, hpl, ?_⟩
      · rw [removePunct_idem]; exact hp
      · rw [removePunct_idem]; exact hpl

theorem condBoth_pres_lower (s : String) (h : condBoth s) :
    condBoth (DataCleaner.safe_lowercase s) := by
  by_cases hn : s = "nan"
  · subst hn; decide
  · rcases h with h | ⟨hp, hl, hpl⟩
    · exact absurd h hn
    · rw [safe_lowercase_of_ne s hn]
      refine Or.inr ⟨?_, ?_, ?_⟩
      · rw [removePunct_pyLower]; exact hpl
      · rw [pyLower_idem]; exact hl
      · rw [removePunct_pyLower, pyLower_idem]; exact hpl

theorem condBoth_stab_punct (s : String) (h : condBoth s) :
    DataCleaner.safe_remove_punctuation (DataCleaner.safe_remove_punctuation s) =
      DataCleaner.safe_remove_punctuation s := by
  by_cases hn : s = "nan"
  · subst hn; rfl
  · rcases h with h | ⟨hp, _, _⟩
    · exact absurd h hn
    · rw [safe_remove_punctuation_of_ne s hn, safe_remove_punctuation_of_ne _ hp,
        removePunct_idem]

theorem condBoth_stab_lower (s : String) (h : condBoth s) :
    DataCleaner.safe_lowercase (DataCleaner.safe_lowercase s) =
      DataCleaner.safe_lowercase s := by
  by_cases hn : s = "nan"
  · subst hn; rfl
  · rcases h with h | ⟨_, hl, _⟩
    · exact absurd h hn
    · rw [safe_lowercase_of_ne s hn, safe_lowercase_of_ne _ hl, pyLower_idem]

theorem condBoth_comm (s : String) (h : condBoth s) :
    DataCleaner.safe_lowercase (DataCleaner.safe_remove_punctuation s) =
      DataCleaner.safe_remove_punctuation (DataCleaner.safe_lowercase s) := by
  by_cases hn : s = "nan"
  · subst hn; rfl
  · rcases h with h | ⟨hp, hl, _⟩
    · exact absurd h hn
    · rw [safe_remove_punctuation_of_ne s hn, safe_lowercase_of_ne s hn,
        safe_lowercase_of_ne _ hp, safe_remove_punctuation_of_ne _ hl, removePunct_pyLower]

/-! ## Claims C4 and C5: algebra of the cleaning transforms -/

/-- C4, as stated, is false: on a table whose text cell is the genuine
string `"NaN"`, one application of `ToLowercase` yields `"nan"` and a
second application hits the `'nan'` guard of `_safe_lowercase` and yields
`""`, so applying it twice differs from applying it once. -/
theorem claim_C4_counterexample :
    DataCleaner.convert_to_lowercase
        (DataCleaner.convert_to_lowercase [⟨some "NaN", some "1"⟩] [Col.text]) [Col.text] ≠
      DataCleaner.convert_to_lowercase [⟨some "NaN", some "1"⟩] [Col.text] := by
  decide

/-- C4 (amended): `ToLowercase` is idempotent on every table in which no
targeted cell holds a value other than `"nan"` whose lowercasing is the
string `"nan"` (for example `"NaN"`); in particular on all tables whose
text never spells a case variant of the word `nan`. -/
theorem claim_C4_amended (t : List Row) (cols : List Col)
    (h : ∀ r ∈ t, ∀ c ∈ cols, condLower (astypeStr (getCol c r))) :
    DataCleaner.convert_to_lowercase (DataCleaner.convert_to_lowercase t cols) cols =
      DataCleaner.convert_to_lowercase t cols := by
  have hrw : ∀ u : List Row,
      DataCleaner.convert_to_lowercase u cols =
        u.map (rowTransform DataCleaner.safe_lowercase cols) :=
    fun u => foldl_applyColMap _ cols u
  rw [hrw, hrw, List.map_map]
  apply List.map_congr_left
  intro r hr
  show rowTransform _ cols (rowTransform _ cols r) = rowTransform _ cols r
  have h1 := rowTransform_eq_rowNormal condLower_pres condLower_stab cols r (h r hr)
  have h2 := rowNormal_cond condLower_pres cols r (h r hr)
  rw [h1, rowTransform_eq_rowNormal condLower_pres condLower_stab cols _ h2,
    rowNormal_rowNormal condLower_stab cols r (h r hr)]

theorem claim_C4_witness :
    (∀ r ∈ [Row.mk (some "Hi There") (some "1")], ∀ c ∈ [Col.text],
        condLower (astypeStr (getCol c r))) ∧
      DataCleaner.convert_to_lowercase
          (DataCleaner.convert_to_lowercase [⟨some "Hi There", some "1"⟩] [Col.text])
          [Col.text] =
        DataCleaner.convert_to_lowercase [⟨some "Hi There", some "1"⟩] [Col.text] :=
  ⟨by decide, claim_C4_amended _ _ (by decide)⟩

/-- C5, as stated, is false: on a table whose text cell is the genuine
string `"NaN"`, punctuation removal then lowercasing yields `"nan"`,
while lowercasing first yields `"nan"` and punctuation removal then hits
the `'nan'` guard and yields `""`. -/
theorem claim_C5_counterexample :
    DataCleaner.convert_to_lowercase
        (DataCleaner.removing_punctuation_marks [⟨some "NaN", some "1"⟩] [Col.text])
        [Col.text] ≠
      DataCleaner.removing_punctuation_marks
        (DataCleaner.convert_to_lowercase [⟨some "NaN", some "1"⟩] [Col.text])
        [Col.text] := by
  decide

/-- C5 (amended): `StripPunctuation` and `ToLowercase` commute on every
table in which no targeted cell (other than a literal `"nan"`) is turned
into the string `"nan"` by punctuation stripping, by lowercasing, or by
stripping followed by lowercasing. -/
theorem claim_C5_amended (t : List Row) (cols : List Col)
    (h : ∀ r ∈ t, ∀ c ∈ cols, condBoth (astypeStr (getCol c r))) :
    DataCleaner.convert_to_lowercase
        (DataCleaner.removing_punctuation_marks t cols) cols =
      DataCleaner.removing_punctuation_marks
        (DataCleaner.convert_to_lowercase t cols) cols := by
  have hrwL : ∀ u : List Row,
      DataCleaner.convert_to_lowercase u cols =
        u.map (rowTransform DataCleaner.safe_lowercase cols) :=
    fun u => foldl_applyColMap _ cols u
  have hrwP : ∀ u : List Row,
      DataCleaner.removing_punctuation_marks u cols =
        u.map (rowTransform DataCleaner.safe_remove_punctuation cols) :=
    fun u => foldl_applyColMap _ cols u
  rw [hrwP, hrwL, hrwL, hrwP, List.map_map, List.map_map]
  apply List.map_congr_left
  intro r hr
  have hhr := h r hr
  have e1 := rowTransform_eq_rowNormal condBoth_pres_punct condBoth_stab_punct cols r hhr
  have hP := rowNormal_cond condBoth_pres_punct cols r hhr
  have e2 := rowTransform_eq_rowNormal condBoth_pres_lower condBoth_stab_lower cols
    (rowNormal DataCleaner.safe_remove_punctuation cols r) hP
  have e3 := rowTransform_eq_rowNormal condBoth_pres_lower condBoth_stab_lower cols r hhr
  have hL := rowNormal_cond condBoth_pres_lower cols r hhr
  have e4 := rowTransform_eq_rowNormal condBoth_pres_punct condBoth_stab_punct cols
    (rowNormal DataCleaner.safe_lowercase cols r) hL
  show rowTransform _ cols (rowTransform _ cols r) =
    rowTransform _ cols (rowTransform _ cols r)
  rw [e1, e2, e3, e4]
  apply rowEqOfGet
  intro c
  by_cases hc : c ∈ cols
  · simp only [getCol_rowNormal, if_pos hc]
    show some (DataCleaner.safe_lowercase (DataCleaner.safe_remove_punctuation _)) =
      some (DataCleaner.safe_remove_punctuation (DataCleaner.safe_lowercase _))
    rw [condBoth_comm _ (hhr c hc)]
  · simp only [getCol_rowNormal, if_neg hc]

theorem claim_C5_witness :
    (∀ r ∈ [Row.mk (some "Hello, WORLD!!") (some "1")], ∀ c ∈ [Col.text],
        condBoth (astypeStr (getCol c r))) ∧
      DataCleaner.convert_to_lowercase
          (DataCleaner.removing_punctuation_marks
            [⟨some "Hello, WORLD!!", some "1"⟩] [Col.text]) [Col.text] =
        DataCleaner.removing_punctuation_marks
          (DataCleaner.convert_to_lowercase
            [⟨some "Hello, WORLD!!", some "1"⟩] [Col.text]) [Col.text] :=
  ⟨by decide, claim_C5_amended _ _ (by decide)⟩

/-! ## Claims C8 and C9 -/

/-- C8 (confirmed): on an empty table the exploration step fails with the
construction-time error of `DataInformation.__init__`, before any
statistic is computed; on every non-empty table it succeeds. -/
theorem claim_C8 (t : List Row) :
    (t = [] → step1_data_exploration t = .error "Data cannot be empty.") ∧
    (t ≠ [] → ∃ r, step1_data_exploration t = .ok r) := by
  constructor
  · intro h
    subst h
    rfl
  · intro h
    have h0 : dataInformationInit t = .ok (t.length, 2) := by
      rw [dataInformationInit, if_neg (by simpa using h)]
    unfold step1_data_exploration
    rw [h0]
    exact ⟨_, rfl⟩

theorem claim_C8_witness :
    (([] : List Row) = [] ∧
      step1_data_exploration [] = .error "Data cannot be empty.") ∧
    (([⟨some "hi", some "1"⟩] : List Row) ≠ [] ∧
      ∃ r, step1_data_exploration [⟨some "hi", some "1"⟩] = .ok r) :=
  ⟨⟨rfl, (claim_C8 []).1 rfl⟩, ⟨by decide, (claim_C8 _).2 (by decide)⟩⟩

theorem applyColMap_append (φ : String → String) (c : Col) (u v : List Row) :
    DataCleaner.applyColMap φ c (u ++ v) =
      DataCleaner.applyColMap φ c u ++ DataCleaner.applyColMap φ c v :=
  List.map_append _ _ _

theorem punct_single (t : List Row) (c : Col) :
    DataCleaner.removing_punctuation_marks t [c] =
      DataCleaner.applyColMap DataCleaner.safe_remove_punctuation c t := rfl

theorem lower_single (t : List Row) (c : Col) :
    DataCleaner.convert_to_lowercase t [c] =
      DataCleaner.applyColMap DataCleaner.safe_lowercase c t := rfl

theorem ws_single (t : List Row) (c : Col) :
    DataCleaner.remove_extra_whitespace t [c] =
      DataCleaner.applyColMap DataCleaner.clean_whitespace c t := rfl

theorem remove_empty_single (t : List Row) (c : Col) :
    DataCleaner.remove_empty_entries t [c] =
      t.filter (fun r =>
        (getCol c r).isSome &&
        decide (pyStrip (astypeStr (getCol c r)) ≠ "") &&
        decide (astypeStr (getCol c r) ≠ "nan")) := rfl

theorem delete_unclassified_cons (r : Row) (t : List Row) (cols : List Col) :
    DataCleaner.delete_unclassified (r :: t) cols =
      if cols.all (fun c => (getCol c r).isSome) then
        r :: DataCleaner.delete_unclassified t cols
      else DataCleaner.delete_unclassified t cols := by
  unfold DataCleaner.delete_unclassified
  rw [List.filter_cons]

theorem comprehensive_cons (r : Row) (t : List Row) :
    DataCleaner.comprehensive_text_cleaning (r :: t) [Col.text] [Col.biased] =
      (if (getCol Col.biased r).isSome then
        DataCleaner.comprehensive_text_cleaning [r] [Col.text] []
       else []) ++
        DataCleaner.comprehensive_text_cleaning t [Col.text] [Col.biased] := by
  unfold DataCleaner.comprehensive_text_cleaning
  rw [delete_unclassified_cons]
  have hall : (List.all [Col.biased] fun c => (getCol c r).isSome) =
      (getCol Col.biased r).isSome := by
    simp
  rw [hall]
  by_cases hb : (getCol Col.biased r).isSome
  · rw [if_pos hb, if_pos hb]
    rw [show r :: DataCleaner.delete_unclassified t [Col.biased] =
      [r] ++ DataCleaner.delete_unclassified t [Col.biased] from rfl]
    rw [show DataCleaner.delete_unclassified [r] [] = [r] from rfl]
    rw [punct_single, punct_single, punct_single, applyColMap_append,
      lower_single, lower_single, lower_single, applyColMap_append,
      ws_single, ws_single, ws_single, applyColMap_append,
      remove_empty_single, remove_empty_single, remove_empty_single,
      List.filter_append]
  · rw [if_neg hb, if_neg hb, List.nil_append]

/-- C9 (confirmed): each of the three text-cell cleaning transforms maps
the genuine string value `"nan"` to the empty string, and consequently a
row whose text is the literal word `"nan"` never survives the cleaning
pipeline: cleaning a table is the same as cleaning it with all
`"nan"`-text rows removed up front (they are emptied and then dropped by
the empty-entry removal). -/
theorem claim_C9 :
    DataCleaner.safe_lowercase "nan" = "" ∧
    DataCleaner.safe_remove_punctuation "nan" = "" ∧
    DataCleaner.clean_whitespace "nan" = "" ∧
    ∀ t : List Row,
      DataCleaner.comprehensive_text_cleaning t [Col.text] [Col.biased] =
        DataCleaner.comprehensive_text_cleaning
          (t.filter (fun r => !(r.text == some "nan"))) [Col.text] [Col.biased] := by
  refine ⟨rfl, rfl, rfl, ?_⟩
  intro t
  induction t with
  | nil => rfl
  | cons r t ih =>
    rw [List.filter_cons]
    by_cases hq : r.text = some "nan"
    · rw [if_neg (by simp [hq])]
      rw [comprehensive_cons, ih]
      obtain ⟨tx, lb⟩ := r
      have htx : tx = some "nan" := hq
      subst htx
      have hnil :
          DataCleaner.comprehensive_text_cleaning [(⟨some "nan", lb⟩ : Row)]
            [Col.text] [] = [] := rfl
      rw [hnil]
      simp
    · rw [if_pos (by simp [hq])]
      rw [comprehensive_cons, comprehensive_cons, ih]

/-! ## Claim C10: the Formatter silently drops unknown label keys -/

theorem countsSection_keys (m : List (String × Nat)) :
    ∀ k ∈ (convertCountsSection m).map Prod.fst,
      k ∈ ["antisemitic", "non_antisemitic", "total", "unspecified"] := by
  induction m with
  | nil => intro k hk; simp [convertCountsSection] at hk
  | cons p rest ih =>
    intro k hk
    obtain ⟨k2, v⟩ := p
    rw [convertCountsSection] at hk
    by_cases h1 : k2 = "1" ∨ k2 = "0"
    · rw [if_pos h1, List.map_cons] at hk
      rcases List.mem_cons.1 hk with h | h
      · rcases h1 with h1 | h1 <;> (subst h1; rw [h]; simp [convert_category_name])
      · exact ih k h
    · rw [if_neg h1] at hk
      by_cases h2 : k2 = "unspecified"
      · rw [if_pos h2, List.map_cons] at hk
        rcases List.mem_cons.1 hk with h | h
        · rw [h]; simp
        · exact ih k h
      · rw [if_neg h2] at hk
        by_cases h3 : k2 = "total"
        · rw [if_pos h3, List.map_cons] at hk
          rcases List.mem_cons.1 hk with h | h
          · rw [h]; simp
          · exact ih k h
        · rw [if_neg h3] at hk
          exact ih k hk

theorem avgSection_keys (m : List (String × ℚ)) :
    ∀ k ∈ (convertAvgSection m).map Prod.fst,
      k ∈ ["antisemitic", "non_antisemitic", "total"] := by
  induction m with
  | nil => intro k hk; simp [convertAvgSection] at hk
  | cons p rest ih =>
    intro k hk
    obtain ⟨k2, v⟩ := p
    rw [convertAvgSection] at hk
    by_cases h1 : k2 = "1" ∨ k2 = "0"
    · rw [if_pos h1, List.map_cons] at hk
      rcases List.mem_cons.1 hk with h | h
      · rcases h1 with h1 | h1 <;> (subst h1; rw [h]; simp [convert_category_name])
      · exact ih k h
    · rw [if_neg h1] at hk
      by_cases h2 : k2 = "total"
      · rw [if_pos h2, List.map_cons] at hk
        rcases List.mem_cons.1 hk with h | h
        · rw [h]; simp
        · exact ih k h
      · rw [if_neg h2] at hk
        exact ih k hk

theorem longestSection_keys (m : List (String × List (Option String))) :
    ∀ k ∈ (convertLongestSection m).map Prod.fst,
      k ∈ ["antisemitic", "non_antisemitic"] := by
  induction m with
  | nil => intro k hk; simp [convertLongestSection] at hk
  | cons p rest ih =>
    intro k hk
    obtain ⟨k2, v⟩ := p
    rw [convertLongestSection] at hk
    by_cases h1 : k2 = "1" ∨ k2 = "0"
    · rw [if_pos h1, List.map_cons] at hk
      rcases List.mem_cons.1 hk with h | h
      · rcases h1 with h1 | h1 <;> (subst h1; rw [h]; simp [convert_category_name])
      · exact ih k h
    · rw [if_neg h1] at hk
      exact ih k hk

theorem upperSection_keys (m : List (String × Nat)) :
    ∀ k ∈ (convertUpperSection m).map Prod.fst,
      k ∈ ["antisemitic", "non_antisemitic", "total"] := by
  induction m with
  | nil => intro k hk; simp [convertUpperSection] at hk
  | cons p rest ih =>
    intro k hk
    obtain ⟨k2, v⟩ := p
    rw [convertUpperSection] at hk
    by_cases h1 : k2 = "1" ∨ k2 = "0"
    · rw [if_pos h1, List.map_cons] at hk
      rcases List.mem_cons.1 hk with h | h
      · rcases h1 with h1 | h1 <;> (subst h1; rw [h]; simp [convert_category_name])
      · exact ih k h
    · rw [if_neg h1] at hk
      by_cases h2 : k2 = "total"
      · rw [if_pos h2, List.map_cons] at hk
        rcases List.mem_cons.1 hk with h | h
        · rw [h]; simp
        · exact ih k h
      · rw [if_neg h2] at hk
        exact ih k hk

/-- C10 (confirmed): every section of the exam-format output only ever
carries the keys renamed from `'1'`/`'0'` plus `'total'`/`'unspecified'`
where the section admits them; any other label key of the statistics
bundle (for example `'2'`) is silently dropped from every section, so the
per-section sums of the formatted output need not reach the raw total
(concrete instance: a bundle counting 1 tweet for label `'1'`, 5 for
label `'2'`, total 6). -/
theorem claim_C10 (a : AnalysisResults) :
    (∀ k ∈ (convert_to_exam_format a).total_tweets.map Prod.fst,
       k ∈ ["antisemitic", "non_antisemitic", "total", "unspecified"]) ∧
    (∀ k ∈ (convert_to_exam_format a).average_length.map Prod.fst,
       k ∈ ["antisemitic", "non_antisemitic", "total"]) ∧
    (∀ k ∈ (convert_to_exam_format a).longest_3_tweets.map Prod.fst,
       k ∈ ["antisemitic", "non_antisemitic"]) ∧
    (∀ k ∈ (convert_to_exam_format a).uppercase_words.map Prod.fst,
       k ∈ ["antisemitic", "non_antisemitic", "total"]) ∧
    (convert_to_exam_format a).common_words = [("total", a.common_words)] ∧
    convertCountsSection [("1", 1), ("2", 5), ("total", 6), ("unspecified", 0)] =
      [("antisemitic", 1), ("total", 6), ("unspecified", 0)] ∧
    (((convertCountsSection [("1", 1), ("2", 5), ("total", 6), ("unspecified", 0)]).filter
        (fun p => decide (p.1 ≠ "total") && decide (p.1 ≠ "unspecified"))).map
      (fun p => p.2)).sum ≠ 6 :=
  ⟨countsSection_keys a.total_tweets, avgSection_keys a.average_length,
   longestSection_keys a.longest_3_tweets, upperSection_keys a.uppercase_words,
   rfl, by decide, by decide⟩

theorem claim_C10_witness :
    "antisemitic" ∈
        (convert_to_exam_format
          ⟨[("1", 1), ("2", 5), ("total", 6), ("unspecified", 0)], [], [], [], []⟩).total_tweets.map
          Prod.fst ∧
      "antisemitic" ∈ ["antisemitic", "non_antisemitic", "total", "unspecified"] :=
  ⟨by decide,
   (claim_C10 ⟨[("1", 1), ("2", 5), ("total", 6), ("unspecified", 0)], [], [], [], []⟩).1
     "antisemitic" (by decide)⟩

/-! ## Stable descending sort versus the explicit lexicographic sort -/

theorem mem_insertD {α : Type} (key : α → Nat) (x : α) :
    ∀ (l : List α) (a : α), a ∈ insertD key x l ↔ a = x ∨ a ∈ l
  | [], a => by simp [insertD]
  | y :: ys, a => by
    rw [insertD]
    by_cases h : key y ≤ key x
    · rw [if_pos h]
      simp
    · rw [if_neg h, List.mem_cons, List.mem_cons, mem_insertD key x ys a]
      tauto

theorem mem_sortD {α : Type} (key : α → Nat) :
    ∀ (l : List α) (a : α), a ∈ sortD key l ↔ a ∈ l
  | [], a => Iff.rfl
  | x :: xs, a => by
    rw [sortD, mem_insertD, mem_sortD key xs a, List.mem_cons]

theorem mem_insertL {α : Type} (key idx : α → Nat) (x : α) :
    ∀ (l : List α) (a : α), a ∈ insertL key idx x l ↔ a = x ∨ a ∈ l
  | [], a => by simp [insertL]
  | y :: ys, a => by
    rw [insertL]
    by_cases h : key y < key x ∨ (key y = key x ∧ idx x < idx y)
    · rw [if_pos h]
      simp
    · rw [if_neg h, List.mem_cons, List.mem_cons, mem_insertL key idx x ys a]
      tauto

theorem mem_sortL {α : Type} (key idx : α → Nat) :
    ∀ (l : List α) (a : α), a ∈ sortL key idx l ↔ a ∈ l
  | [], a => Iff.rfl
  | x :: xs, a => by
    rw [sortL, mem_insertL, mem_sortL key idx xs a, List.mem_cons]

theorem length_insertD {α : Type} (key : α → Nat) (x : α) :
    ∀ l : List α, (insertD key x l).length = l.length + 1
  | [] => rfl
  | y :: ys => by
    rw [insertD]
    by_cases h : key y ≤ key x
    · rw [if_pos h]
      rfl
    · rw [if_neg h, List.length_cons, length_insertD key x ys, List.length_cons]

theorem length_sortD {α : Type} (key : α → Nat) :
    ∀ l : List α, (sortD key l).length = l.length
  | [] => rfl
  | x :: xs => by
    rw [sortD, length_insertD, length_sortD key xs, List.length_cons]

theorem insertD_eq_insertL {α : Type} (key idx : α → Nat) (x : α) :
    ∀ l : List α, (∀ y ∈ l, idx x < idx y) → insertD key x l = insertL key idx x l
  | [], _ => rfl
  | y :: ys, h => by
    rw [insertD, insertL]
    have hxy := h y (List.mem_cons_self y ys)
    by_cases hk : key y ≤ key x
    · rw [if_pos hk, if_pos (by omega)]
    · rw [if_neg hk, if_neg (by omega),
        insertD_eq_insertL key idx x ys (fun z hz => h z (List.mem_cons_of_mem y hz))]

theorem sortD_eq_sortL {α : Type} (key idx : α → Nat) :
    ∀ l : List α, l.Pairwise (fun a b => idx a < idx b) → sortD key l = sortL key idx l
  | [], _ => rfl
  | x :: xs, h => by
    rw [sortD, sortL, sortD_eq_sortL key idx xs (List.pairwise_cons.1 h).2]
    exact insertD_eq_insertL key idx x _
      (fun y hy => (List.pairwise_cons.1 h).1 y ((mem_sortL key idx xs y).1 hy))

theorem insertD_map {α β : Type} (key : α → Nat) (f : β → α) (x : β) :
    ∀ l : List β, insertD key (f x) (l.map f) = (insertD (fun b => key (f b)) x l).map f
  | [] => rfl
  | y :: ys => by
    rw [List.map_cons, insertD, insertD]
    by_cases h : key (f y) ≤ key (f x)
    · rw [if_pos h, if_pos h, List.map_cons, List.map_cons]
    · rw [if_neg h, if_neg h, List.map_cons, insertD_map key f x ys]

theorem sortD_map {α β : Type} (key : α → Nat) (f : β → α) :
    ∀ l : List β, sortD key (l.map f) = (sortD (fun b => key (f b)) l).map f
  | [] => rfl
  | x :: xs => by
    rw [List.map_cons, sortD, sortD, sortD_map key f xs, insertD_map]

/-! ## Enumeration with original positions -/

theorem idxFrom_map_snd {α : Type} : ∀ (i : Nat) (l : List α),
    (idxFrom i l).map Prod.snd = l
  | _, [] => rfl
  | i, a :: l => by
    rw [idxFrom, List.map_cons, idxFrom_map_snd (i + 1) l]

theorem le_fst_of_mem_idxFrom {α : Type} : ∀ (i : Nat) (l : List α) (p : Nat × α),
    p ∈ idxFrom i l → i ≤ p.1
  | i, [], p => by intro h; simp [idxFrom] at h
  | i, a :: l, p => by
    intro h
    rw [idxFrom] at h
    rcases List.mem_cons.1 h with h | h
    · rw [h]
    · have := le_fst_of_mem_idxFrom (i + 1) l p h
      omega

theorem idxFrom_pairwise {α : Type} : ∀ (i : Nat) (l : List α),
    (idxFrom i l).Pairwise (fun a b => a.1 < b.1)
  | _, [] => List.Pairwise.nil
  | i, a :: l => by
    rw [idxFrom]
    refine List.Pairwise.cons ?_ (idxFrom_pairwise (i + 1) l)
    intro p hp
    have := le_fst_of_mem_idxFrom (i + 1) l p hp
    simp
    omega

theorem filter_idxFrom {α : Type} (P : α → Bool) : ∀ (i : Nat) (l : List α),
    ((idxFrom i l).filter (fun p => P p.2)).map Prod.snd = l.filter P
  | _, [] => rfl
  | i, a :: l => by
    by_cases h : P a <;>
      simp [idxFrom, List.filter_cons, h, filter_idxFrom P (i + 1) l]

/-! ## Claim C6: longest texts per label -/

theorem zip_computeWordCounts : ∀ t : List Row,
    t.zip (computeWordCounts t) = t.map (fun r => (r, wordCountCell r.text))
  | [] => rfl
  | r :: t => by
    show (r :: t).zip ((r :: t).map fun r2 => wordCountCell r2.text) = _
    rw [List.map_cons, List.zip_cons_cons, List.map_cons]
    exact congrArg _ (zip_computeWordCounts t)

theorem sortD_snd_take_map {α β : Type} (key : α → Nat) (g : α → β) (n : Nat)
    (l : List (Nat × α)) :
    ((sortD (fun p => key p.2) l).take n).map (fun p => g p.2) =
      ((sortD key (l.map Prod.snd)).take n).map g := by
  rw [sortD_map key Prod.snd l, ← List.map_take, List.map_map]
  rfl

theorem filter_pairs (t : List Row) (c : String) :
    (t.map (fun r => (r, wordCountCell r.text))).filter
      (fun p => p.1.biased == some c) =
      (t.filter (fun r => r.biased == some c)).map
        (fun r => (r, wordCountCell r.text)) := by
  rw [List.filter_map]
  rfl

theorem longest_per_label (t : List Row) (c : String) :
    ((sortD (fun p => p.2)
        ((t.map (fun r => (r, wordCountCell r.text))).filter
          (fun p => p.1.biased == some c))).take 3).map (fun p => p.1.text) =
      ((sortL (fun p => wordCountCell p.2.text) (fun p => p.1)
          ((idxFrom 0 t).filter (fun p => p.2.biased == some c))).take 3).map
        (fun p => p.2.text) := by
  have hpw : ((idxFrom 0 t).filter (fun p => p.2.biased == some c)).Pairwise
      (fun a b => a.1 < b.1) :=
    List.Pairwise.sublist (List.filter_sublist _) (idxFrom_pairwise 0 t)
  rw [← sortD_eq_sortL _ _ _ hpw]
  have hgen := sortD_snd_take_map (fun r => wordCountCell r.text) (fun r => r.text) 3
    ((idxFrom 0 t).filter (fun p => p.2.biased == some c))
  rw [hgen, filter_idxFrom (fun r => r.biased == some c) 0 t, filter_pairs,
    sortD_map, ← List.map_take, List.map_map]
  rfl

theorem find_longest_eq (t : List Row) :
    (find_longest_tweets ⟨t, none, none⟩).2 =
      (distinctList (labelsOf t)).map (fun c =>
        (c, ((sortD (fun p => p.2)
              ((t.map (fun r => (r, wordCountCell r.text))).filter
                (fun p => p.1.biased == some c))).take 3).map (fun p => p.1.text))) := by
  simp only [find_longest_tweets]
  rw [zip_computeWordCounts]

/-- C6 (confirmed): `LongestTexts` maps each distinct non-missing label to
the texts of the rows with that label of greatest whitespace word count,
in descending word-count order with ties broken by original row order
(the lexicographic specification `longestTextsSpec`); every listed text
comes from a row carrying exactly that (non-missing) label, and each list
has length `min 3 (number of rows with that label)`. -/
theorem claim_C6 (t : List Row) (_h : t ≠ []) :
    (find_longest_tweets ⟨t, none, none⟩).2 = longestTextsSpec t ∧
    (∀ p ∈ (find_longest_tweets ⟨t, none, none⟩).2,
       p.2.length = min 3 (t.filter (fun r => r.biased == some p.1)).length) ∧
    (∀ p ∈ (find_longest_tweets ⟨t, none, none⟩).2, ∀ x ∈ p.2,
       ∃ r ∈ t, r.biased = some p.1 ∧ r.text = x) := by
  have he := find_longest_eq t
  refine ⟨?_, ?_, ?_⟩
  · rw [he, longestTextsSpec]
    apply List.map_congr_left
    intro c _
    exact congrArg (Prod.mk c) (longest_per_label t c)
  · intro p hp
    rw [he] at hp
    obtain ⟨c, hc, rfl⟩ := List.mem_map.1 hp
    show List.length (List.map _ _) = _
    rw [List.length_map, List.length_take, length_sortD, filter_pairs, List.length_map]
  · intro p hp x hx
    rw [he] at hp
    obtain ⟨c, hc, rfl⟩ := List.mem_map.1 hp
    obtain ⟨q, hq, rfl⟩ := List.mem_map.1 hx
    have hq2 := List.take_subset _ _ hq
    have hq3 := (mem_sortD _ _ _).1 hq2
    have hq4 := List.mem_filter.1 hq3
    obtain ⟨r, hr, rfl⟩ := List.mem_map.1 hq4.1
    refine ⟨r, hr, ?_, rfl⟩
    simpa using hq4.2

theorem claim_C6_witness :
    ([⟨some "a b c", some "1"⟩, ⟨some "d", some "1"⟩] : List Row) ≠ [] ∧
      (find_longest_tweets
          ⟨[⟨some "a b c", some "1"⟩, ⟨some "d", some "1"⟩], none, none⟩).2 =
        longestTextsSpec [⟨some "a b c", some "1"⟩, ⟨some "d", some "1"⟩] :=
  ⟨by decide, (claim_C6 _ (by decide)).1⟩

/-! ## First occurrences: `distinctList` -/

theorem contains_not_split (a b : String) (seen : List String) :
    (!(a :: seen).contains b) = (!([a].contains b) && !(seen.contains b)) := by
  by_cases hba : b = a <;> simp [hba, List.contains_cons]

theorem distinctAux_eq_filter :
    ∀ (n : Nat) (l : List String), l.length ≤ n → ∀ seen : List String,
      distinctAux seen l = distinctList (l.filter (fun b => !(seen.contains b)))
  | 0, [], _, _ => rfl
  | _ + 1, [], _, _ => rfl
  | 0, a :: l, hl, _ => by
    rw [List.length_cons] at hl
    omega
  | n + 1, a :: l, hl, seen => by
    rw [distinctAux, List.filter_cons]
    have hl2 : l.length ≤ n := by
      rw [List.length_cons] at hl
      omega
    by_cases hm : a ∈ seen
    · rw [if_pos hm, if_neg (by simp [hm]), distinctAux_eq_filter n l hl2 seen]
    · rw [if_neg hm, if_pos (by simp [hm])]
      show _ = distinctAux [] (a :: l.filter (fun b => !(seen.contains b)))
      rw [distinctAux, if_neg (List.not_mem_nil a),
        distinctAux_eq_filter n l hl2 (a :: seen),
        distinctAux_eq_filter n (l.filter (fun b => !(seen.contains b)))
          (le_trans (List.length_filter_le _ _) hl2) [a]]
      apply congrArg (List.cons a)
      apply congrArg distinctList
      rw [List.filter_filter]
      apply List.filter_congr
      intro b _
      exact contains_not_split a b seen

theorem distinctList_cons (a : String) (l : List String) :
    distinctList (a :: l) = a :: distinctList (l.filter (fun b => !(b == a))) := by
  show distinctAux [] (a :: l) = _
  rw [distinctAux, if_neg (List.not_mem_nil a),
    distinctAux_eq_filter l.length l (le_refl _) [a]]
  apply congrArg (List.cons a)
  apply congrArg distinctList
  apply List.filter_congr
  intro b _
  by_cases hba : b = a <;> simp [hba, List.contains_cons]

theorem distinct_induction {P : List String → Prop} (h0 : P [])
    (h1 : ∀ a l, P (l.filter (fun b => !(b == a))) → P (a :: l)) : ∀ l, P l := by
  have key : ∀ (n : Nat) (l : List String), l.length ≤ n → P l := by
    intro n
    induction n with
    | zero =>
      intro l hl
      rw [Nat.le_zero, List.length_eq_zero] at hl
      rw [hl]
      exact h0
    | succ n ih =>
      intro l hl
      cases l with
      | nil => exact h0
      | cons a l2 =>
        refine h1 a l2 (ih _ (le_trans (List.length_filter_le _ _) ?_))
        rw [List.length_cons] at hl
        omega
  exact fun l => key l.length l (le_refl _)

theorem mem_distinctList : ∀ l : List String, ∀ a ∈ distinctList l, a ∈ l := by
  refine distinct_induction (by simp [distinctList, distinctAux]) ?_
  intro a l ih b hb
  rw [distinctList_cons] at hb
  rcases List.mem_cons.1 hb with h | h
  · rw [h]
    exact List.mem_cons_self a l
  · exact List.mem_cons_of_mem a (List.mem_filter.1 (ih b h)).1

theorem nodup_distinctList : ∀ l : List String, (distinctList l).Nodup := by
  refine distinct_induction (by simp [distinctList, distinctAux]) ?_
  intro a l ih
  rw [distinctList_cons, List.nodup_cons]
  refine ⟨?_, ih⟩
  intro hmem
  have := (List.mem_filter.1 (mem_distinctList _ a hmem)).2
  simp at this

theorem sum_counts_distinct : ∀ l : List String,
    ((distinctList l).map (fun c => l.count c)).sum = l.length := by
  refine distinct_induction (by simp [distinctList, distinctAux]) ?_
  intro a l ih
  rw [distinctList_cons, List.map_cons, List.sum_cons, List.count_cons_self]
  have hcongr : (distinctList (l.filter (fun b => !(b == a)))).map
      (fun c => (a :: l).count c) =
      (distinctList (l.filter (fun b => !(b == a)))).map
        (fun c => (l.filter (fun b => !(b == a))).count c) := by
    apply List.map_congr_left
    intro c hc
    have hc2 := List.mem_filter.1 (mem_distinctList _ c hc)
    have hca : c ≠ a := by
      have := hc2.2
      simpa using this
    rw [List.count_cons_of_ne hca, List.count_filter (by simpa using hca)]
  rw [hcongr, ih, List.length_cons]
  have hsplit := List.length_eq_countP_add_countP (p := (· == a)) (l := l)
  rw [List.countP_eq_length_filter, List.countP_eq_length_filter] at hsplit
  have hcount : l.count a = (l.filter (· == a)).length := by
    rw [List.count]
    exact List.countP_eq_length_filter _ l
  have hfeq : (l.filter (fun b => !(b == a))).length =
      (l.filter (fun b => ¬(b == a) = true)).length := by
    apply congrArg List.length
    apply List.filter_congr
    intro b _
    by_cases hba : b = a <;> simp [hba]
  omega

/-! ## Python-dict insertion -/

theorem dictInsert_fresh {β : Type} (k : String) (v : β) :
    ∀ d : List (String × β), k ∉ d.map Prod.fst → dictInsert k v d = d ++ [(k, v)]
  | [], _ => rfl
  | (k2, v2) :: rest, h => by
    have h2 : ¬(k = k2 ∨ k ∈ rest.map Prod.fst) := by simpa using h
    rw [dictInsert, if_neg (fun hk => (not_or.1 h2).1 hk.symm), List.cons_append,
      dictInsert_fresh k v rest (not_or.1 h2).2]

theorem foldl_dictInsert_fresh {β : Type} (f : String → β) :
    ∀ (cs : List String) (acc : List (String × β)), cs.Nodup →
      (∀ c ∈ cs, c ∉ acc.map Prod.fst) →
      cs.foldl (fun d c => dictInsert c (f c) d) acc = acc ++ cs.map (fun c => (c, f c))
  | [], acc, _, _ => by simp
  | c :: cs, acc, hnd, hfresh => by
    rw [List.foldl_cons, dictInsert_fresh c (f c) acc (hfresh c (List.mem_cons_self c cs)),
      foldl_dictInsert_fresh f cs (acc ++ [(c, f c)]) (List.nodup_cons.1 hnd).2 ?_,
      List.append_assoc, List.singleton_append, List.map_cons]
    intro c2 hc2
    rw [List.map_append]
    intro hmem
    rcases List.mem_append.1 hmem with hm | hm
    · exact hfresh c2 (List.mem_cons_of_mem c hc2) hm
    · have : c2 = c := by simpa using hm
      exact (List.nodup_cons.1 hnd).1 (this ▸ hc2)

theorem lookup_append_of_not_key {β : Type} (k : String) :
    ∀ d : List (String × β), k ∉ d.map Prod.fst →
      ∀ d2 : List (String × β), (d ++ d2).lookup k = d2.lookup k
  | [], _, d2 => rfl
  | (k2, v2) :: rest, h, d2 => by
    have h2 : ¬(k = k2 ∨ k ∈ rest.map Prod.fst) := by simpa using h
    have hne : (k == k2) = false := by
      simpa using (not_or.1 h2).1
    rw [List.cons_append, List.lookup, hne,
      lookup_append_of_not_key k rest (not_or.1 h2).2 d2]

/-! ## Claim C2: the category-count invariant -/

theorem labelsOf_length : ∀ t : List Row,
    (labelsOf t).length + t.countP (fun r => r.biased == none) = t.length
  | [] => rfl
  | r :: t => by
    have ih := labelsOf_length t
    cases hb : r.biased <;>
      simp [labelsOf, List.filterMap_cons, hb, List.countP_cons] at ih ⊢ <;>
      omega

theorem keys_of_map_pair {β : Type} (f : String → β) (cs : List String) :
    (cs.map (fun c => (c, f c))).map Prod.fst = cs := by
  rw [List.map_map]
  exact List.map_id' cs

theorem count_tweets_shape (t : List Row)
    (h1 : "total" ∉ labelsOf t) (h2 : "unspecified" ∉ labelsOf t) :
    count_tweets_by_category ⟨t, none, none⟩ =
      ((distinctList (labelsOf t)).map (fun c => (c, (labelsOf t).count c))) ++
        [("total", t.length), ("unspecified", t.countP (fun r => r.biased == none))] := by
  have hbase : (distinctList (labelsOf t)).foldl
      (fun d c => dictInsert c ((labelsOf t).count c) d) [] =
      (distinctList (labelsOf t)).map (fun c => (c, (labelsOf t).count c)) := by
    have h := foldl_dictInsert_fresh (fun c => (labelsOf t).count c)
      (distinctList (labelsOf t)) [] (nodup_distinctList _) (by intro c _; simp)
    simpa using h
  have hkeys : ((distinctList (labelsOf t)).map
      (fun c => (c, (labelsOf t).count c))).map Prod.fst = distinctList (labelsOf t) :=
    keys_of_map_pair _ _
  have htot : "total" ∉ ((distinctList (labelsOf t)).map
      (fun c => (c, (labelsOf t).count c))).map Prod.fst := by
    rw [hkeys]
    intro hm
    exact h1 (mem_distinctList _ _ hm)
  show dictInsert "unspecified" _ (dictInsert "total" _ _) = _
  rw [hbase, dictInsert_fresh _ _ _ htot, dictInsert_fresh, List.append_assoc]
  rfl
  rw [List.map_append, hkeys]
  intro hm
  rcases List.mem_append.1 hm with hm | hm
  · exact h2 (mem_distinctList _ _ hm)
  · simp at hm

/-- C2, as stated, is false: quantified over every non-empty table it
breaks when a label value stringifies to `'total'` (or `'unspecified'`),
because the per-label dict entry is overwritten by the `total` entry.  On
the one-row table labelled `"total"` the result is
`{"total": 1, "unspecified": 0}`: the per-label counts sum to `0`, plus
`0` missing, which differs from the `total` entry `1`. -/
theorem claim_C2_counterexample :
    ¬ ((((count_tweets_by_category ⟨[⟨some "hi", some "total"⟩], none, none⟩).filter
          (fun p => decide (p.1 ≠ "total") && decide (p.1 ≠ "unspecified"))).map
        (fun p => p.2)).sum +
        ((count_tweets_by_category
          ⟨[⟨some "hi", some "total"⟩], none, none⟩).lookup "unspecified").getD 0 =
      ((count_tweets_by_category
        ⟨[⟨some "hi", some "total"⟩], none, none⟩).lookup "total").getD 0) := by
  decide

/-- C2 (amended): for every non-empty table in which no label value
stringifies to `'total'` or `'unspecified'`, the CountsByLabel result has
`total = number of rows`, `unspecified = number of missing labels`, and
the per-label counts (every entry other than `total`/`unspecified`) sum
with the missing count to the total. -/
theorem claim_C2 (t : List Row) (_h : t ≠ [])
    (h1 : "total" ∉ labelsOf t) (h2 : "unspecified" ∉ labelsOf t) :
    (count_tweets_by_category ⟨t, none, none⟩).lookup "total" = some t.length ∧
    (count_tweets_by_category ⟨t, none, none⟩).lookup "unspecified" =
      some (t.countP (fun r => r.biased == none)) ∧
    (((count_tweets_by_category ⟨t, none, none⟩).filter
        (fun p => decide (p.1 ≠ "total") && decide (p.1 ≠ "unspecified"))).map
      (fun p => p.2)).sum + t.countP (fun r => r.biased == none) = t.length := by
  rw [count_tweets_shape t h1 h2]
  have hkeys := keys_of_map_pair (fun c => (labelsOf t).count c) (distinctList (labelsOf t))
  have hnk : ∀ k : String, k ∉ labelsOf t →
      k ∉ ((distinctList (labelsOf t)).map
        (fun c => (c, (labelsOf t).count c))).map Prod.fst := by
    intro k hk
    rw [hkeys]
    intro hm
    exact hk (mem_distinctList _ _ hm)
  refine ⟨?_, ?_, ?_⟩
  · rw [lookup_append_of_not_key _ _ (hnk _ h1)]
    rfl
  · rw [lookup_append_of_not_key _ _ (hnk _ h2)]
    rfl
  · rw [List.filter_append]
    have hkeep : ((distinctList (labelsOf t)).map
        (fun c => (c, (labelsOf t).count c))).filter
        (fun p => decide (p.1 ≠ "total") && decide (p.1 ≠ "unspecified")) =
        (distinctList (labelsOf t)).map (fun c => (c, (labelsOf t).count c)) := by
      apply List.filter_eq_self.2
      intro p hp
      obtain ⟨c, hc, rfl⟩ := List.mem_map.1 hp
      have hcl := mem_distinctList _ _ hc
      have hc1 : c ≠ "total" := fun hh => h1 (hh ▸ hcl)
      have hc2 : c ≠ "unspecified" := fun hh => h2 (hh ▸ hcl)
      simp [hc1, hc2]
    have hdrop : ([("total", t.length),
        ("unspecified", t.countP (fun r => r.biased == none))].filter
        (fun p => decide (p.1 ≠ "total") && decide (p.1 ≠ "unspecified"))) = [] := by
      apply List.filter_eq_nil_iff.2
      intro p hp
      rcases List.mem_cons.1 hp with rfl | hp2
      · simp
      · rcases List.mem_cons.1 hp2 with rfl | hp3
        · simp
        · simp at hp3
    rw [hkeep, hdrop, List.append_nil, List.map_map]
    have hsum : ((distinctList (labelsOf t)).map
        ((fun p => p.2) ∘ (fun c => (c, (labelsOf t).count c)))).sum =
        (labelsOf t).length := sum_counts_distinct (labelsOf t)
    rw [hsum]
    exact labelsOf_length t

theorem claim_C2_witness :
    ([⟨some "a", some "1"⟩, ⟨some "b", none⟩] : List Row) ≠ [] ∧
    "total" ∉ labelsOf [⟨some "a", some "1"⟩, ⟨some "b", none⟩] ∧
    "unspecified" ∉ labelsOf [⟨some "a", some "1"⟩, ⟨some "b", none⟩] ∧
    (count_tweets_by_category
      ⟨[⟨some "a", some "1"⟩, ⟨some "b", none⟩], none, none⟩).lookup "total" = some 2 :=
  ⟨by decide, by decide, by decide,
   (claim_C2 _ (by decide) (by decide) (by decide)).1⟩

/-! ## Claim C1: effect of the statistics on the shared raw table -/

theorem statStep_inv (rows : List Row) (op : Stat) (s : PTable)
    (h : s.rows = rows ∧
      (s.word_count = none ∨ s.word_count = some (computeWordCounts rows)) ∧
      (s.uppercase_count = none ∨ s.uppercase_count = some (computeUpperCounts rows))) :
    (statStep op s).rows = rows ∧
      ((statStep op s).word_count = none ∨
        (statStep op s).word_count = some (computeWordCounts rows)) ∧
      ((statStep op s).uppercase_count = none ∨
        (statStep op s).uppercase_count = some (computeUpperCounts rows)) := by
  obtain ⟨rs, wc, uc⟩ := s
  obtain ⟨h1, h2, h3⟩ := h
  simp only at h1 h2 h3
  subst h1
  cases op
  · exact ⟨rfl, h2, h3⟩
  · exact ⟨rfl, Or.inr rfl, h3⟩
  · rcases h2 with h2 | h2 <;> subst h2
    · exact ⟨rfl, Or.inr rfl, h3⟩
    · exact ⟨rfl, Or.inr rfl, h3⟩
  · exact ⟨rfl, h2, h3⟩
  · exact ⟨rfl, h2, Or.inr rfl⟩

theorem statObs_inv (rows : List Row) (op : Stat) (s : PTable)
    (h : s.rows = rows ∧
      (s.word_count = none ∨ s.word_count = some (computeWordCounts rows)) ∧
      (s.uppercase_count = none ∨ s.uppercase_count = some (computeUpperCounts rows))) :
    statObs op s = statObs op ⟨rows, none, none⟩ := by
  obtain ⟨rs, wc, uc⟩ := s
  obtain ⟨h1, h2, h3⟩ := h
  simp only at h1 h2 h3
  subst h1
  cases op
  · rfl
  · rfl
  · rcases h2 with h2 | h2 <;> subst h2 <;> rfl
  · rfl
  · rfl

theorem foldl_statStep_inv (rows : List Row) :
    ∀ (seq : List Stat) (s : PTable),
      (s.rows = rows ∧
        (s.word_count = none ∨ s.word_count = some (computeWordCounts rows)) ∧
        (s.uppercase_count = none ∨ s.uppercase_count = some (computeUpperCounts rows))) →
      ((seq.foldl (fun st o => statStep o st) s).rows = rows ∧
        ((seq.foldl (fun st o => statStep o st) s).word_count = none ∨
          (seq.foldl (fun st o => statStep o st) s).word_count =
            some (computeWordCounts rows)) ∧
        ((seq.foldl (fun st o => statStep o st) s).uppercase_count = none ∨
          (seq.foldl (fun st o => statStep o st) s).uppercase_count =
            some (computeUpperCounts rows)))
  | [], s, h => h
  | op :: seq, s, h => by
    rw [List.foldl_cons]
    exact foldl_statStep_inv rows seq (statStep op s) (statStep_inv rows op s h)

/-- C1, as stated, is false: computing `AverageWordLength` mutates the
raw table by adding the derived `word_count` column (`self.raw_data['word_count'] = ...`),
so the table does not keep exactly the same columns. -/
theorem claim_C1_counterexample :
    statStep Stat.avgLen ⟨[⟨some "hi", some "1"⟩], none, none⟩ ≠
      ⟨[⟨some "hi", some "1"⟩], none, none⟩ := by
  decide

/-- C1 (amended): computing any sequence of the five statistics never
changes the rows (and hence no cell of the original `Text`/`Biased`
columns) of the raw table, and every statistic observed after any such
sequence returns exactly what it returns on the fresh raw table, so the
statistics are pure functions of the raw rows and may be computed in any
order; however `AverageWordLength` and `UppercaseWordCounts` (and
`LongestTexts`, when `word_count` is absent) do add derived
`word_count`/`uppercase_count` columns to the shared table. -/
theorem claim_C1_amended (t : List Row) (_h : t ≠ []) (seq : List Stat) (op : Stat) :
    (seq.foldl (fun st o => statStep o st) ⟨t, none, none⟩).rows = t ∧
    statObs op (seq.foldl (fun st o => statStep o st) ⟨t, none, none⟩) =
      statObs op ⟨t, none, none⟩ := by
  have hinv := foldl_statStep_inv t seq ⟨t, none, none⟩ ⟨rfl, Or.inl rfl, Or.inl rfl⟩
  exact ⟨hinv.1, statObs_inv t op _ hinv⟩

theorem claim_C1_witness :
    ([⟨some "hi", some "1"⟩] : List Row) ≠ [] ∧
      ([Stat.avgLen, Stat.upper].foldl (fun st o => statStep o st)
          ⟨[⟨some "hi", some "1"⟩], none, none⟩).rows = [⟨some "hi", some "1"⟩] :=
  ⟨by decide,
   (claim_C1_amended [⟨some "hi", some "1"⟩] (by decide)
     [Stat.avgLen, Stat.upper] Stat.longest).1⟩

/-! ## Claim C7: rounding happens only in the Formatter -/

theorem avg_shape (t : List Row) (h1 : "total" ∉ labelsOf t) :
    (calculate_average_lengths ⟨t, none, none⟩).2 =
      ((distinctList (labelsOf t)).map (fun c =>
        (c, qmean ((t.filter (fun r => r.biased == some c)).map
          (fun r => wordCountCell r.text))))) ++
        [("total", qmean (computeWordCounts t))] := by
  have hbase : (distinctList (labelsOf t)).foldl
      (fun d c => dictInsert c
        (qmean ((t.filter (fun r => r.biased == some c)).map
          (fun r => wordCountCell r.text))) d) [] =
      (distinctList (labelsOf t)).map (fun c =>
        (c, qmean ((t.filter (fun r => r.biased == some c)).map
          (fun r => wordCountCell r.text)))) := by
    have h := foldl_dictInsert_fresh
      (fun c => qmean ((t.filter (fun r => r.biased == some c)).map
        (fun r => wordCountCell r.text)))
      (distinctList (labelsOf t)) [] (nodup_distinctList _) (by intro c _; simp)
    simpa using h
  have htot : "total" ∉ ((distinctList (labelsOf t)).map (fun c =>
      (c, qmean ((t.filter (fun r => r.biased == some c)).map
        (fun r => wordCountCell r.text))))).map Prod.fst := by
    rw [keys_of_map_pair]
    intro hm
    exact h1 (mem_distinctList _ _ hm)
  show dictInsert "total" _ _ = _
  rw [hbase, dictInsert_fresh _ _ _ htot]

theorem convertAvg_append_total : ∀ (m : List (String × ℚ)) (q : ℚ),
    convertAvgSection (m ++ [("total", q)]) =
      convertAvgSection m ++ [("total", round1 q)]
  | [], q => by
    show convertAvgSection [("total", q)] = [("total", round1 q)]
    rw [convertAvgSection, if_neg (by decide), if_pos rfl]
    rfl
  | (k, v) :: m, q => by
    rw [List.cons_append, convertAvgSection, convertAvgSection]
    by_cases hk1 : k = "1" ∨ k = "0"
    · rw [if_pos hk1, if_pos hk1, convertAvg_append_total m q, List.cons_append]
    · rw [if_neg hk1, if_neg hk1]
      by_cases hk2 : k = "total"
      · rw [if_pos hk2, if_pos hk2, convertAvg_append_total m q, List.cons_append]
      · rw [if_neg hk2, if_neg hk2, convertAvg_append_total m q]

theorem convertAvg_map_labels : ∀ (cs : List String) (f : String → ℚ),
    "total" ∉ cs →
    convertAvgSection (cs.map (fun c => (c, f c))) =
      cs.filterMap (fun c =>
        if c = "1" then some ("antisemitic", round1 (f c))
        else if c = "0" then some ("non_antisemitic", round1 (f c))
        else none)
  | [], _, _ => rfl
  | c :: cs, f, h => by
    have hc : c ≠ "total" := fun hh => h (hh ▸ List.mem_cons_self c cs)
    have htail : "total" ∉ cs := fun hh => h (List.mem_cons_of_mem c hh)
    rw [List.map_cons, convertAvgSection, List.filterMap_cons]
    by_cases h1 : c = "1" ∨ c = "0"
    · rw [if_pos h1]
      rcases h1 with h1 | h1 <;> subst h1 <;>
        simp [convert_category_name, convertAvg_map_labels cs f htail]
    · rw [if_neg h1, if_neg hc, if_neg (not_or.1 h1).1, if_neg (not_or.1 h1).2,
        convertAvg_map_labels cs f htail]

/-- C7 (confirmed): the Explorer's `average_length` result holds the
exact (unrounded) means — per label the mean word count of that label's
rows, plus the overall mean under `total` — and the Formatter's
`average_length` section holds exactly those means passed once through
`round(·, 1)` (modelled as round-half-to-even at one decimal on exact
rationals), for the renamed `'1'`/`'0'` keys and the `'total'` key. -/
theorem claim_C7 (t : List Row) (_h : t ≠ []) (h1 : "total" ∉ labelsOf t) :
    (calculate_average_lengths ⟨t, none, none⟩).2 =
      ((distinctList (labelsOf t)).map (fun c =>
        (c, qmean ((t.filter (fun r => r.biased == some c)).map
          (fun r => wordCountCell r.text))))) ++
        [("total", qmean (computeWordCounts t))] ∧
    convertAvgSection ((calculate_average_lengths ⟨t, none, none⟩).2) =
      ((distinctList (labelsOf t)).filterMap (fun c =>
        if c = "1" then
          some ("antisemitic", round1 (qmean ((t.filter (fun r => r.biased == some c)).map
            (fun r => wordCountCell r.text))))
        else if c = "0" then
          some ("non_antisemitic", round1 (qmean ((t.filter (fun r => r.biased == some c)).map
            (fun r => wordCountCell r.text))))
        else none)) ++
        [("total", round1 (qmean (computeWordCounts t)))] := by
  have hs := avg_shape t h1
  have hd : "total" ∉ distinctList (labelsOf t) :=
    fun hm => h1 (mem_distinctList _ _ hm)
  refine ⟨hs, ?_⟩
  rw [hs, convertAvg_append_total, convertAvg_map_labels _ _ hd]

theorem claim_C7_witness :
    ([⟨some "a b", some "1"⟩] : List Row) ≠ [] ∧
    "total" ∉ labelsOf [⟨some "a b", some "1"⟩] ∧
    (calculate_average_lengths ⟨[⟨some "a b", some "1"⟩], none, none⟩).2 =
      ((distinctList (labelsOf [⟨some "a b", some "1"⟩])).map (fun c =>
        (c, qmean ((([⟨some "a b", some "1"⟩] : List Row).filter
            (fun r => r.biased == some c)).map (fun r => wordCountCell r.text))))) ++
        [("total", qmean (computeWordCounts [⟨some "a b", some "1"⟩]))] :=
  ⟨by decide, by decide, (claim_C7 _ (by decide) (by decide)).1⟩

/-! ## The `Counter` built by `_find_common_words` -/

theorem counterInsert_not_mem (w : String) :
    ∀ acc : List (String × Nat), w ∉ acc.map Prod.fst →
      counterInsert w acc = acc ++ [(w, 1)]
  | [], _ => rfl
  | (v, n) :: rest, h => by
    have h2 : ¬(w = v ∨ w ∈ rest.map Prod.fst) := by simpa using h
    rw [counterInsert, if_neg (fun hv => (not_or.1 h2).1 hv.symm), List.cons_append,
      counterInsert_not_mem w rest (not_or.1 h2).2]

theorem counterInsert_mem (w : String) :
    ∀ acc : List (String × Nat), (acc.map Prod.fst).Nodup → w ∈ acc.map Prod.fst →
      counterInsert w acc = acc.map (fun p => if p.1 = w then (p.1, p.2 + 1) else p)
  | [], _, hmem => by simp at hmem
  | (v, n) :: rest, hnd, hmem => by
    rw [List.map_cons] at hnd
    by_cases hv : v = w
    · subst hv
      rw [counterInsert, if_pos rfl, List.map_cons, if_pos rfl]
      have hno : v ∉ rest.map Prod.fst := (List.nodup_cons.1 hnd).1
      have hrest : rest.map (fun p => if p.1 = v then (p.1, p.2 + 1) else p) =
          rest.map id := by
        apply List.map_congr_left
        intro p hp
        rw [if_neg (show ¬(p.1 = v) from fun hh => hno (by
          rw [← hh]
          exact List.mem_map_of_mem Prod.fst hp))]
        rfl
      rw [hrest, List.map_id]
    · have hmem2 : w ∈ rest.map Prod.fst := by
        rw [List.map_cons] at hmem
        rcases List.mem_cons.1 hmem with h | h
        · exact absurd h.symm hv
        · exact h
      rw [counterInsert, if_neg hv, List.map_cons, if_neg hv,
        counterInsert_mem w rest (List.nodup_cons.1 hnd).2 hmem2]

theorem keys_counterInsert_mem (w : String) (acc : List (String × Nat))
    (hnd : (acc.map Prod.fst).Nodup) (hmem : w ∈ acc.map Prod.fst) :
    (counterInsert w acc).map Prod.fst = acc.map Prod.fst := by
  rw [counterInsert_mem w acc hnd hmem, List.map_map]
  apply List.map_congr_left
  intro p _
  by_cases hp : p.1 = w <;> simp [hp]

theorem not_contains_cons_split (keys : List String) (w b : String) :
    (decide (b ∉ keys ++ [w])) = (!(b == w) && decide (b ∉ keys)) := by
  by_cases hbw : b = w <;> by_cases hbk : b ∈ keys <;> simp [hbw, hbk]

theorem counterFold_eq : ∀ (ws : List String) (acc : List (String × Nat)),
    (acc.map Prod.fst).Nodup →
    ws.foldl (fun a w => counterInsert w a) acc =
      acc.map (fun p => (p.1, p.2 + ws.count p.1)) ++
        (distinctList (ws.filter (fun w => decide (w ∉ acc.map Prod.fst)))).map
          (fun w => (w, ws.count w))
  | [], acc, _ => by
    simp [distinctList, distinctAux]
  | w :: ws, acc, hnd => by
    rw [List.foldl_cons]
    by_cases hw : w ∈ acc.map Prod.fst
    · have hkeys := keys_counterInsert_mem w acc hnd hw
      rw [counterFold_eq ws (counterInsert w acc) (hkeys ▸ hnd), hkeys]
      have hfirst : (counterInsert w acc).map (fun p => (p.1, p.2 + ws.count p.1)) =
          acc.map (fun p => (p.1, p.2 + (w :: ws).count p.1)) := by
        rw [counterInsert_mem w acc hnd hw, List.map_map]
        apply List.map_congr_left
        intro p _
        simp only [Function.comp_apply]
        by_cases hp : p.1 = w
        · rw [if_pos hp]
          show (p.1, p.2 + 1 + List.count p.1 ws) = (p.1, p.2 + List.count p.1 (w :: ws))
          rw [hp, List.count_cons_self, Prod.mk.injEq]
          exact ⟨rfl, by omega⟩
        · rw [if_neg hp]
          show (p.1, p.2 + List.count p.1 ws) = (p.1, p.2 + List.count p.1 (w :: ws))
          rw [List.count_cons_of_ne hp]
      have hc1 : (decide (w ∉ acc.map Prod.fst)) = false := by simp [hw]
      have hsec : (w :: ws).filter (fun w2 => decide (w2 ∉ acc.map Prod.fst)) =
          ws.filter (fun w2 => decide (w2 ∉ acc.map Prod.fst)) := by
        rw [List.filter_cons, hc1]
        rfl
      have hvals : (distinctList (ws.filter
          (fun w2 => decide (w2 ∉ acc.map Prod.fst)))).map
            (fun w2 => (w2, ws.count w2)) =
          (distinctList (ws.filter (fun w2 => decide (w2 ∉ acc.map Prod.fst)))).map
            (fun w2 => (w2, (w :: ws).count w2)) := by
        apply List.map_congr_left
        intro w2 hw2
        have hmem := List.mem_filter.1 (mem_distinctList _ _ hw2)
        have hne : w2 ≠ w := by
          intro hh
          subst hh
          have h2 : w2 ∉ acc.map Prod.fst := by simpa using hmem.2
          exact h2 hw
        rw [List.count_cons_of_ne hne]
      rw [hfirst, hsec, hvals]
    · rw [counterInsert_not_mem w acc hw]
      have hkeys2 : (acc ++ [(w, 1)]).map Prod.fst = acc.map Prod.fst ++ [w] := by
        rw [List.map_append]
        rfl
      have hnd2 : ((acc ++ [(w, 1)]).map Prod.fst).Nodup := by
        rw [hkeys2]
        refine List.nodup_append.2 ⟨hnd, by simp, ?_⟩
        intro b hb
        simp only [List.mem_cons, List.not_mem_nil, or_false]
        intro hh
        exact hw (hh ▸ hb)
      rw [counterFold_eq ws (acc ++ [(w, 1)]) hnd2]
      have hA1 : ((acc ++ [(w, 1)] : List (String × Nat))).map
          (fun p => (p.1, p.2 + ws.count p.1)) =
          acc.map (fun p => (p.1, p.2 + ws.count p.1)) ++ [(w, 1 + ws.count w)] := by
        rw [List.map_append]
        rfl
      have hA2 : acc.map (fun p => (p.1, p.2 + ws.count p.1)) =
          acc.map (fun p => (p.1, p.2 + (w :: ws).count p.1)) := by
        apply List.map_congr_left
        intro p hp
        have hne : p.1 ≠ w := by
          intro hh
          exact hw (hh ▸ List.mem_map_of_mem Prod.fst hp)
        rw [List.count_cons_of_ne hne]
      have hA4 : ws.filter (fun b => decide (b ∉ (acc ++ [(w, 1)]).map Prod.fst)) =
          ws.filter (fun b => !(b == w) && decide (b ∉ acc.map Prod.fst)) := by
        apply List.filter_congr
        intro b _
        rw [hkeys2]
        exact not_contains_cons_split (acc.map Prod.fst) w b
      have hc2 : (decide (w ∉ acc.map Prod.fst)) = true := by simp [hw]
      have hA5 : (w :: ws).filter (fun b => decide (b ∉ acc.map Prod.fst)) =
          w :: ws.filter (fun b => decide (b ∉ acc.map Prod.fst)) := by
        rw [List.filter_cons, hc2]
        rfl
      have hA9 : (ws.filter (fun b => decide (b ∉ acc.map Prod.fst))).filter
          (fun b => !(b == w)) =
          ws.filter (fun b => !(b == w) && decide (b ∉ acc.map Prod.fst)) :=
        List.filter_filter _ _
      have hA8 : (distinctList ((ws.filter
          (fun b => decide (b ∉ acc.map Prod.fst))).filter (fun b => !(b == w)))).map
            (fun w2 => (w2, ws.count w2)) =
          (distinctList ((ws.filter (fun b => decide (b ∉ acc.map Prod.fst))).filter
            (fun b => !(b == w)))).map (fun w2 => (w2, (w :: ws).count w2)) := by
        apply List.map_congr_left
        intro w2 hw2
        have hmem := List.mem_filter.1 (mem_distinctList _ _ hw2)
        have hne : w2 ≠ w := by
          have := hmem.2
          simpa using this
        rw [List.count_cons_of_ne hne]
      rw [hA1, hA2, hA4, ← hA9, hA5, distinctList_cons, List.map_cons, ← hA8,
        List.append_assoc, List.count_cons_self, Nat.add_comm 1 (ws.count w),
        List.singleton_append]

theorem counterOf_eq (ws : List String) :
    counterOf ws = (distinctList ws).map (fun w => (w, ws.count w)) := by
  show ws.foldl (fun a w => counterInsert w a) [] = _
  rw [counterFold_eq ws [] (by simp)]
  have hfil : ws.filter
      (fun w => decide (w ∉ (([] : List (String × Nat)).map Prod.fst))) = ws := by
    apply List.filter_eq_self.2
    intro a _
    simp
  rw [hfil]
  rfl

/-! ## First-occurrence indices -/

theorem firstIdx_lt_of_filter (p : String → Bool) : ∀ (l : List String) (a b : String),
    a ∈ l.filter p → b ∈ l.filter p →
    firstIdx a (l.filter p) < firstIdx b (l.filter p) → firstIdx a l < firstIdx b l
  | [], a, b => by
    intro ha
    simp at ha
  | x :: l, a, b => by
    intro ha hb hlt
    rw [List.filter_cons] at ha hb hlt
    by_cases hx : p x
    · rw [if_pos hx] at ha hb hlt
      by_cases hax : a = x
      · subst hax
        rw [firstIdx, if_pos rfl]
        by_cases hba : b = a
        · subst hba
          rw [firstIdx, if_pos rfl] at hlt
          exact absurd hlt (lt_irrefl _)
        · rw [firstIdx, if_neg (fun hh => hba hh.symm)]
          omega
      · by_cases hbx : b = x
        · subst hbx
          rw [firstIdx, if_neg (fun hh => hax hh.symm), firstIdx, if_pos rfl] at hlt
          omega
        · rw [firstIdx, if_neg (fun hh => hax hh.symm),
            firstIdx, if_neg (fun hh => hbx hh.symm)]
          rw [firstIdx, if_neg (fun hh => hax hh.symm),
            firstIdx, if_neg (fun hh => hbx hh.symm)] at hlt
          have ha2 : a ∈ l.filter p := by
            rcases List.mem_cons.1 ha with h | h
            · exact absurd h hax
            · exact h
          have hb2 : b ∈ l.filter p := by
            rcases List.mem_cons.1 hb with h | h
            · exact absurd h hbx
            · exact h
          have := firstIdx_lt_of_filter p l a b ha2 hb2 (by omega)
          omega
    · rw [if_neg hx] at ha hb hlt
      have hax : a ≠ x := fun hh => hx (hh ▸ (List.mem_filter.1 ha).2)
      have hbx : b ≠ x := fun hh => hx (hh ▸ (List.mem_filter.1 hb).2)
      rw [firstIdx, if_neg (fun hh => hax hh.symm),
        firstIdx, if_neg (fun hh => hbx hh.symm)]
      have := firstIdx_lt_of_filter p l a b ha hb hlt
      omega

theorem pairwise_firstIdx : ∀ l : List String,
    (distinctList l).Pairwise (fun a b => firstIdx a l < firstIdx b l) := by
  refine distinct_induction (by simp [distinctList, distinctAux]) ?_
  intro a l ih
  rw [distinctList_cons]
  refine List.Pairwise.cons ?_ ?_
  · intro b hb
    have hbf := List.mem_filter.1 (mem_distinctList _ _ hb)
    have hba : b ≠ a := by
      have := hbf.2
      simpa using this
    rw [firstIdx, if_pos rfl, firstIdx, if_neg (fun hh => hba hh.symm)]
    omega
  · refine List.Pairwise.imp_of_mem ?_ ih
    intro x y hx hy hxy
    have hxf := mem_distinctList _ _ hx
    have hyf := mem_distinctList _ _ hy
    have hxa : x ≠ a := by
      have := (List.mem_filter.1 hxf).2
      simpa using this
    have hya : y ≠ a := by
      have := (List.mem_filter.1 hyf).2
      simpa using this
    have hmono := firstIdx_lt_of_filter (fun b => !(b == a)) l x y hxf hyf hxy
    rw [firstIdx, if_neg (fun hh => hxa hh.symm),
      firstIdx, if_neg (fun hh => hya hh.symm)]
    omega

/-! ## Claim C3: the common-words statistic -/

theorem alphaChar_not_digit_punct (c : Char) (h : pyIsAlphaChar c = true) :
    pyIsDigitChar c = false ∧ pyIsPunctChar c = false := by
  rw [pyIsAlphaChar, Bool.or_eq_true, pyIsUpperChar, pyIsLowerChar, Bool.and_eq_true,
    Bool.and_eq_true, decide_eq_true_eq, decide_eq_true_eq, decide_eq_true_eq,
    decide_eq_true_eq] at h
  constructor
  · rw [pyIsDigitChar, ← Bool.decide_and]
    apply decide_eq_false
    omega
  · rw [pyIsPunctChar]
    apply decide_eq_false
    intro hm
    rcases mem_punctCodes_bounds hm with hb | hb | hb | hb <;> omega

theorem mostCommon_eq_spec (ws : List String) :
    mostCommon 10 ws =
      (sortL (fun w => ws.count w) (fun w => firstIdx w ws) (distinctList ws)).take 10 := by
  rw [mostCommon, counterOf_eq,
    sortD_map (fun p => p.2) (fun w => (w, ws.count w)) (distinctList ws),
    ← List.map_take, List.map_map]
  show ((sortD (fun w => ws.count w) (distinctList ws)).take 10).map (fun w => w) =
    (sortL (fun w => ws.count w) (fun w => firstIdx w ws) (distinctList ws)).take 10
  rw [List.map_id', sortD_eq_sortL (fun w => ws.count w) (fun w => firstIdx w ws)
    (distinctList ws) (pairwise_firstIdx ws)]

theorem find_common_words_eq (t : List Row) :
    find_common_words ⟨t, none, none⟩ = commonWordsSpec t := by
  show mostCommon 10 (qualifyingTokens t) = _
  rw [mostCommon_eq_spec]
  rfl

/-- C3 (confirmed): `_find_common_words` equals the reference algorithm
`commonWordsSpec` — lowercase the space-joined non-missing texts, delete
punctuation, split on whitespace, keep alphabetic tokens of length ≥ 2,
count, and take the 10 highest-count tokens with ties broken by first
occurrence (`Counter.most_common` is the stable descending sort by count
over first-occurrence insertion order) — and every returned token has
length ≥ 2 (in particular not 1) and only alphabetic characters, hence
no digit and no punctuation character. -/
theorem claim_C3 (t : List Row) (_h : t ≠ []) :
    find_common_words ⟨t, none, none⟩ = commonWordsSpec t ∧
    ∀ w ∈ find_common_words ⟨t, none, none⟩,
      2 ≤ w.data.length ∧ w.data.length ≠ 1 ∧
      ∀ c ∈ w.data, pyIsAlphaChar c = true ∧ pyIsDigitChar c = false ∧
        pyIsPunctChar c = false := by
  refine ⟨find_common_words_eq t, ?_⟩
  intro w hw
  have hw2 : w ∈ qualifyingTokens t := by
    have h1 : w ∈ ((sortD (fun p => p.2) (counterOf (qualifyingTokens t))).take 10).map
        (fun p => p.1) := hw
    obtain ⟨p, hp, rfl⟩ := List.mem_map.1 h1
    have hp2 := (mem_sortD _ _ _).1 (List.take_subset _ _ hp)
    rw [counterOf_eq] at hp2
    obtain ⟨w2, hmem2, rfl⟩ := List.mem_map.1 hp2
    exact mem_distinctList _ _ hmem2
  have hq := List.mem_filter.1 hw2
  have hq2 := hq.2
  rw [Bool.and_eq_true, decide_eq_true_eq] at hq2
  obtain ⟨hlen, halpha⟩ := hq2
  rw [pyIsAlphaStr, Bool.and_eq_true] at halpha
  have hall := halpha.2
  rw [List.all_eq_true] at hall
  refine ⟨hlen, by omega, ?_⟩
  intro c hc
  have hc2 := hall c hc
  exact ⟨hc2, (alphaChar_not_digit_punct c hc2).1, (alphaChar_not_digit_punct c hc2).2⟩

theorem claim_C3_witness :
    ([⟨some "hello world hello", some "1"⟩] : List Row) ≠ [] ∧
      find_common_words ⟨[⟨some "hello world hello", some "1"⟩], none, none⟩ =
        commonWordsSpec [⟨some "hello world hello", some "1"⟩] :=
  ⟨by decide, (claim_C3 _ (by decide)).1⟩
